import Mathlib

/-!
# sdmsh: TCP stream driver and the shell event loop

A shallow embedding of `lib/libstream/stream_tcp.c` and of the main loop of
`sdmsh.c`.  Operating-system calls are modelled by explicit result lists that
the code consumes in call order, and every call the code performs is appended
to a call log, so that "no call is made" is a statement about that log.
-/

namespace Sdmsh

/-! ## Machine integers and constants of the C library -/

/-- Largest value of a C `int` (32 bit). -/
def INT_MAX : Int := 2147483647

/-- Conversion of an integer value to a 32-bit `int` (two's complement wrap). -/
def toInt32 (x : Int) : Int :=
  let u := x % 4294967296
  if u < 2147483648 then u else u - 4294967296

/-- Value of `2 * sample_count` computed in `unsigned` and stored in an `int`. -/
def requested_length_of (sample_count : Nat) : Int :=
  toInt32 (((2 * sample_count) % 4294967296 : Nat) : Int)

/-- Linux value of `EINTR`. -/
def EINTR : Int := 4
/-- Linux value of `EAGAIN`. -/
def EAGAIN : Int := 11
/-- Linux value of `EINVAL`. -/
def EINVAL : Int := 22
/-- Linux value of `AF_INET`. -/
def AF_INET : Int := 2

/-- One byte of memory. -/
abbrev Byte := Nat

/-- Memory reachable from a `char*`: the byte at every offset. -/
abbrev Mem := Nat → Byte

/-- Effect of the kernel storing `bytes` at `&mem[offset]`. -/
def store (mem : Mem) (offset : Int) (bytes : List Byte) : Mem :=
  fun i =>
    if offset ≤ (i : Int) ∧ (i : Int) < offset + bytes.length then
      bytes.getD ((i : Int) - offset).toNat 0
    else mem i

/-- The first `n` bytes of a memory region. -/
def firstBytes (mem : Mem) (n : Nat) : List Byte :=
  (List.range n).map mem

/-! ## Data model of `stream.h` -/

/-- Modelled from the spec: the direction of a stream, declared in the absent
`stream.h`; the spec gives exactly the two values INPUT and OUTPUT. -/
inductive Direction where
  | STREAM_INPUT
  | STREAM_OUTPUT
deriving DecidableEq, Repr

open Direction

/-- Socket address as filled by `stream_open`. -/
structure sockaddr_in where
  sin_family : Int
  sin_addr : Int
  sin_port : Int
deriving DecidableEq, Repr

/-- Private data of the TCP driver (`struct private_data_t`). -/
structure private_data_t where
  error : Int
  error_op : Option String
  fd : Int
  saun : sockaddr_in
deriving DecidableEq, Repr

/-- The fields of `sdm_stream_t` the TCP driver uses. -/
structure sdm_stream_t where
  direction : Direction
  args : Option (List Char)
  name : String
  pdata : private_data_t
deriving DecidableEq, Repr

/-- A call made to the operating system, with its arguments. -/
inductive SysCall where
  | socket
  | connect (fd : Int) (addr : sockaddr_in)
  | setsockopt (fd : Int)
  | bind (fd : Int) (addr : sockaddr_in)
  | listen (fd : Int) (backlog : Int)
  | accept (fd : Int)
  | close (fd : Int)
  | read (fd : Int) (offset : Int) (count : Int)
  | write (fd : Int) (offset : Int) (count : Int)
deriving DecidableEq, Repr

/-- Result of one `read` call: bytes delivered (none at all is end-of-stream,
return value 0) or a failure (return value -1) with the `errno` it leaves. -/
inductive ReadResult where
  | data (bytes : List Byte)
  | fail (errno : Int)
deriving DecidableEq, Repr

/-- Return value of a `read` call. -/
def ReadResult.rv : ReadResult → Int
  | .data bytes => bytes.length
  | .fail _ => -1

/-- The `errno` a `read` call leaves. -/
def ReadResult.errno : ReadResult → Int
  | .data _ => 0
  | .fail e => e

/-- Bytes a `read` call put in the buffer. -/
def ReadResult.bytes : ReadResult → List Byte
  | .data bytes => bytes
  | .fail _ => []

/-- Result of one `write` call: number of bytes accepted, or a failure. -/
inductive WriteResult where
  | accepted (n : Nat)
  | fail (errno : Int)
deriving DecidableEq, Repr

/-- Return value of a `write` call. -/
def WriteResult.rv : WriteResult → Int
  | .accepted n => n
  | .fail _ => -1

/-- The `errno` a `write` call leaves. -/
def WriteResult.errno : WriteResult → Int
  | .accepted _ => 0
  | .fail e => e

/-! ## `stream_read` -/

/-- State at the end of the `do ... while` loop of `stream_read`. -/
structure ReadLoop where
  rv : Int
  offset : Int
  samples : Mem
  calls : List SysCall
  rest : List ReadResult

/-- The `do ... while (offset < requested_length)` loop of `stream_read`.
Each pass takes the next result of the operating system; `none` when the
results end before the loop does. -/
def stream_read_loop (fd : Int) (requested_length : Int) :
    List ReadResult → Int → Mem → List SysCall → Option ReadLoop
  | [], _, _, _ => none
  | r :: env, offset, samples, calls =>
    let calls := calls ++ [SysCall.read fd offset (requested_length - offset)]
    let rv := r.rv
    if rv > 0 then
      let samples := store samples offset r.bytes
      let offset := offset + rv
      if offset < requested_length then
        stream_read_loop fd requested_length env offset samples calls
      else some ⟨rv, offset, samples, calls, env⟩
    else if rv < 0 ∧ (r.errno = EAGAIN ∨ r.errno = EINTR) then
      -- `continue` jumps to the loop condition
      if offset < requested_length then
        stream_read_loop fd requested_length env offset samples calls
      else some ⟨rv, offset, samples, calls, env⟩
    else some ⟨rv, offset, samples, calls, env⟩

/-- What a call of `stream_read` leaves behind: the value returned, the stream
record (the function never assigns to it), the sample buffer, the calls made
and the results of the operating system not yet used. -/
structure ReadOutcome where
  ret : Int
  stream : sdm_stream_t
  samples : Mem
  calls : List SysCall
  rest : List ReadResult

/-- Embedding of `stream_read`.  `SDM_ERROR_STREAM` is the constant of the
absent `error.h`; `env` holds the results of the successive `read` calls. -/
def stream_read (SDM_ERROR_STREAM : Int) (stream : sdm_stream_t) (samples : Mem)
    (sample_count : Nat) (env : List ReadResult) : Option ReadOutcome :=
  let requested_length := requested_length_of sample_count
  if stream.direction = STREAM_OUTPUT then
    some ⟨SDM_ERROR_STREAM, stream, samples, [], env⟩
  else
    match stream_read_loop stream.pdata.fd requested_length env 0 samples [] with
    | none => none
    | some l =>
      if l.rv = 0 then some ⟨Int.tdiv l.offset 2, stream, l.samples, l.calls, l.rest⟩
      else if l.offset = requested_length then
        some ⟨toInt32 ((sample_count % 4294967296 : Nat) : Int), stream, l.samples, l.calls,
          l.rest⟩
      else some ⟨SDM_ERROR_STREAM, stream, l.samples, l.calls, l.rest⟩

/-! ## `stream_write` -/

/-- State at the end of the `do ... while` loop of `stream_write`. -/
structure WriteLoop where
  rv : Int
  offset : Int
  calls : List SysCall
  rest : List WriteResult
deriving DecidableEq, Repr

/-- The `do ... while (offset < requested_length)` loop of `stream_write`. -/
def stream_write_loop (fd : Int) (requested_length : Int) :
    List WriteResult → Int → List SysCall → Option WriteLoop
  | [], _, _ => none
  | r :: env, offset, calls =>
    let calls := calls ++ [SysCall.write fd offset (requested_length - offset)]
    let rv := r.rv
    if rv > 0 then
      let offset := offset + rv
      if offset < requested_length then
        stream_write_loop fd requested_length env offset calls
      else some ⟨rv, offset, calls, env⟩
    else if rv < 0 ∧ (r.errno = EAGAIN ∨ r.errno = EINTR) then
      if offset < requested_length then
        stream_write_loop fd requested_length env offset calls
      else some ⟨rv, offset, calls, env⟩
    else some ⟨rv, offset, calls, env⟩

/-- What a call of `stream_write` leaves behind. -/
structure WriteOutcome where
  ret : Int
  stream : sdm_stream_t
  calls : List SysCall
  rest : List WriteResult
deriving DecidableEq, Repr

/-- Embedding of `stream_write`. -/
def stream_write (SDM_ERROR_STREAM : Int) (stream : sdm_stream_t)
    (sample_count : Nat) (env : List WriteResult) : Option WriteOutcome :=
  let requested_length := requested_length_of sample_count
  if stream.direction = STREAM_INPUT then
    some ⟨SDM_ERROR_STREAM, stream, [], env⟩
  else
    match stream_write_loop stream.pdata.fd requested_length env 0 [] with
    | none => none
    | some l =>
      if l.offset = requested_length then
        some ⟨toInt32 ((sample_count % 4294967296 : Nat) : Int), stream, l.calls, l.rest⟩
      else some ⟨SDM_ERROR_STREAM, stream, l.calls, l.rest⟩

/-! ## `stream_open`, `stream_close`, error accessors, constructor -/

/-- Result of a socket-level call: return value and the `errno` it leaves. -/
structure SysResult where
  rv : Int
  errno : Int
deriving DecidableEq, Repr

/-- The C library functions `stream_open` uses to fill the socket address. -/
structure Libc where
  atoi : List Char → Int
  inet_addr : List Char → Int
  htons : Int → Int
  strerror : Int → String

/-- What `stream_open` and its helpers leave behind. -/
structure OpenOutcome where
  ret : Int
  stream : sdm_stream_t
  calls : List SysCall
  rest : List SysResult
deriving DecidableEq, Repr

/-- Embedding of `stream_open_connect`.  `close` is taken to leave `errno`
as the failed `connect` set it. -/
def stream_open_connect (SDM_ERROR_NONE SDM_ERROR_STREAM : Int) (stream : sdm_stream_t)
    (env : List SysResult) : Option OpenOutcome :=
  match env with
  | [] => none
  | s :: env =>
    let pdata := { stream.pdata with fd := s.rv }
    if s.rv < 0 then
      let pdata := { pdata with error := s.errno, error_op := some "socket creation error" }
      some ⟨SDM_ERROR_STREAM, { stream with pdata := pdata }, [SysCall.socket], env⟩
    else
      match env with
      | [] => none
      | c :: env =>
        if c.rv = -1 then
          let pdata := { pdata with error := c.errno, error_op := some "connecting socket" }
          some ⟨SDM_ERROR_STREAM, { stream with pdata := pdata },
            [SysCall.socket, SysCall.connect pdata.fd pdata.saun, SysCall.close pdata.fd], env⟩
        else
          some ⟨SDM_ERROR_NONE, { stream with pdata := pdata },
            [SysCall.socket, SysCall.connect pdata.fd pdata.saun], env⟩

/-- The label `stream_listen_error` of `stream_open_listen`. -/
def stream_listen_error (SDM_ERROR_STREAM : Int) (stream : sdm_stream_t) (wait_conn_fd : Int)
    (calls : List SysCall) (env : List SysResult) : OpenOutcome :=
  if wait_conn_fd ≥ 0 then
    ⟨SDM_ERROR_STREAM, stream, calls ++ [SysCall.close wait_conn_fd], env⟩
  else ⟨SDM_ERROR_STREAM, stream, calls, env⟩

/-- Embedding of `stream_open_listen`. -/
def stream_open_listen (SDM_ERROR_NONE SDM_ERROR_STREAM : Int) (stream : sdm_stream_t)
    (env : List SysResult) : Option OpenOutcome :=
  let fail (stream : sdm_stream_t) (r : SysResult) (op : String) (wait_conn_fd : Int)
      (calls : List SysCall) (env : List SysResult) : Option OpenOutcome :=
    let pdata := { stream.pdata with error := r.errno, error_op := some op }
    some (stream_listen_error SDM_ERROR_STREAM { stream with pdata := pdata } wait_conn_fd
      calls env)
  match env with
  | [] => none
  | s :: env =>
    let wait_conn_fd := s.rv
    let calls := [SysCall.socket]
    if wait_conn_fd < 0 then fail stream s "socket creation error" wait_conn_fd calls env
    else
    match env with
    | [] => none
    | o :: env =>
      let calls := calls ++ [SysCall.setsockopt wait_conn_fd]
      if o.rv < 0 then fail stream o "setting socket parameters" wait_conn_fd calls env
      else
      match env with
      | [] => none
      | b :: env =>
        let calls := calls ++ [SysCall.bind wait_conn_fd stream.pdata.saun]
        if b.rv < 0 then fail stream b "binding socket" wait_conn_fd calls env
        else
        match env with
        | [] => none
        | l :: env =>
          let calls := calls ++ [SysCall.listen wait_conn_fd 1]
          if l.rv = -1 then fail stream l "listening socket" wait_conn_fd calls env
          else
          match env with
          | [] => none
          | a :: env =>
            let calls := calls ++ [SysCall.accept wait_conn_fd]
            let stream := { stream with pdata := { stream.pdata with fd := a.rv } }
            if a.rv < 0 then
              fail stream a "accepting socket connection" wait_conn_fd calls env
            else some ⟨SDM_ERROR_NONE, stream, calls, env⟩

/-- C library `strtok` on the string at the saved position: the token found
(`none` for `NULL`) and the new saved position. -/
def strtok (s : List Char) (delim : List Char) : Option (List Char) × List Char :=
  let s := s.dropWhile (fun c => decide (c ∈ delim))
  match s with
  | [] => (none, [])
  | _ :: _ =>
    let tok := s.takeWhile (fun c => !decide (c ∈ delim))
    let after := s.dropWhile (fun c => !decide (c ∈ delim))
    (some tok, after.tail)

/-- Embedding of `stream_open`. -/
def stream_open (libc : Libc) (SDM_ERROR_NONE SDM_ERROR_STREAM : Int) (stream : sdm_stream_t)
    (env : List SysResult) : Option OpenOutcome :=
  let rv := SDM_ERROR_STREAM
  match stream.args with
  | none =>
    let pdata := { stream.pdata with error := EINVAL, error_op := some "tcp arguments undefined" }
    some ⟨rv, { stream with pdata := pdata }, [], env⟩
  | some args =>
    let (socket_type, saved) := strtok args [':']
    let (ip_s, saved) := strtok saved [':']
    let (port_s, _) := strtok saved [':']
    match socket_type, ip_s, port_s with
    | some socket_type, some ip_s, some port_s =>
      let port := libc.atoi port_s
      let saun : sockaddr_in := ⟨AF_INET, libc.inet_addr ip_s, libc.htons port⟩
      let stream := { stream with pdata := { stream.pdata with saun := saun } }
      if socket_type = "connect".toList then
        stream_open_connect SDM_ERROR_NONE SDM_ERROR_STREAM stream env
      else if socket_type = "listen".toList then
        stream_open_listen SDM_ERROR_NONE SDM_ERROR_STREAM stream env
      else
        let pdata :=
          { stream.pdata with error := EINVAL, error_op := some "connection type undefiend" }
        some ⟨rv, { stream with pdata := pdata }, [], env⟩
    | _, _, _ =>
      let pdata :=
        { stream.pdata with error := EINVAL, error_op := some "arguments parsing error" }
      some ⟨rv, { stream with pdata := pdata }, [], env⟩

/-- Embedding of `stream_close`: the value returned and the calls made.  The
stream record is not assigned to. -/
def stream_close (SDM_ERROR_NONE : Int) (stream : sdm_stream_t) :
    Int × sdm_stream_t × List SysCall :=
  if stream.pdata.fd ≥ 0 then
    (SDM_ERROR_NONE, stream, [SysCall.close stream.pdata.fd])
  else (SDM_ERROR_NONE, stream, [])

/-- Embedding of `stream_get_error`: the message and the stream afterwards. -/
def stream_get_error (libc : Libc) (stream : sdm_stream_t) : String × sdm_stream_t :=
  (libc.strerror stream.pdata.error, stream)

/-- Embedding of `stream_get_error_op`: the context and the stream afterwards. -/
def stream_get_error_op (stream : sdm_stream_t) : Option String × sdm_stream_t :=
  (stream.pdata.error_op, stream)

/-- Embedding of `sdm_stream_tcp_new`: `calloc` hands out zeroed private data. -/
def sdm_stream_tcp_new (SDM_ERROR_NONE : Int) (stream : sdm_stream_t) : Int × sdm_stream_t :=
  (SDM_ERROR_NONE,
    { stream with pdata := ⟨0, none, 0, ⟨0, 0, 0⟩⟩, name := "TCP" })

/-! ## The main loop of `sdmsh.c` -/

/-- Bit of `flags` set by the option `-h`. -/
def FLAG_SHOW_HELP : Nat := 0x01
/-- Bit of `flags` set by the option `-s`. -/
def FLAG_SEND_STOP : Nat := 0x02
/-- Bit of `flags` set by the option `-x` (`--ignore-errors`). -/
def FLAG_IGNORE_ERRORS : Nat := 0x04

/-- The three flag-setting cases of the option `switch` of `main`; the other
options leave `flags` as it is. -/
def apply_flag_option (flags : Nat) (opt : Char) : Nat :=
  if opt = 'h' then flags ||| FLAG_SHOW_HELP
  else if opt = 's' then flags ||| FLAG_SEND_STOP
  else if opt = 'x' then flags ||| FLAG_IGNORE_ERRORS
  else flags

/-- Value of `flags` after the option loop has seen the options `opts`. -/
def flags_of_options (opts : List Char) : Nat :=
  opts.foldl apply_flag_option 0

/-- Modelled from the spec: the session states of the absent `sdm.h`; the spec
lists INIT, IDLE, WAIT_REPLY and RX. -/
inductive SdmState where
  | SDM_STATE_INIT
  | SDM_STATE_IDLE
  | SDM_STATE_WAIT_REPLY
  | SDM_STATE_RX
deriving DecidableEq, Repr

open SdmState

/-- The fields of `sdm_session_t` the main loop reads. -/
structure sdm_session_t where
  sockfd : Int
  state : SdmState
  rx_data_len : Nat
deriving DecidableEq, Repr

/-- Modelled from the spec: what the main loop reads of `struct shell_config`
of the absent `shell.h`: the value of `is_interactive_mode(&shell_config)` and
the descriptor `fileno(shell_config.input)` of the active input source
(`none` when `shell_config.input` is `NULL`). -/
structure shell_config_t where
  interactive : Bool
  input : Option Int
deriving DecidableEq, Repr

/-- What the main loop does that is visible from outside. -/
inductive Event where
  | update_promt_state
  | select (rfds : List Int) (maxfd : Int) (tv_sec tv_usec : Int)
  | input_read
  | sock_read
  | handle_rx_data (len : Int)
  | forced_update_display
  | shell_deinit
  | sdm_close
  | err (status : Int)
deriving DecidableEq, Repr

/-- Outcome of the first part of an iteration (lines up to the prompt update):
the descriptor set, `maxfd` and the timeout handed to `select`, or leaving the
loop, or `fileno(NULL)`. -/
inductive Readiness where
  | wait (rfds : List Int) (maxfd : Int) (tv_sec tv_usec : Int)
  | leave
  | undefined
deriving DecidableEq, Repr

/-- The computation of `rfds`, `maxfd` and `tv` at the top of the main loop.
An `fd_set` is the list of the descriptors set in it. -/
def readiness_set (ss : sdm_session_t) (cfg : shell_config_t) : Readiness :=
  let rfds := [ss.sockfd]
  if ss.state = SDM_STATE_INIT then
    Readiness.wait rfds ss.sockfd 0 10
  else if !cfg.interactive ∧ (ss.state = SDM_STATE_WAIT_REPLY ∨ ss.state = SDM_STATE_RX) then
    Readiness.wait rfds ss.sockfd 1 0
  else if !cfg.interactive ∧ cfg.input = none then
    Readiness.leave
  else
    match cfg.input with
    | none => Readiness.undefined
    | some fd =>
      Readiness.wait (rfds ++ [fd]) (if ss.sockfd > fd then ss.sockfd else fd) 1 0

/-- One call of `sdm_handle_rx_data`: the value returned and the session it
leaves. -/
structure RxStep where
  rc : Int
  session : sdm_session_t
deriving DecidableEq, Repr

/-- What the outside world answers during one iteration of the main loop. -/
structure IterEnv where
  select : SysResult
  ready : List Int
  shell_rc : Int
  shell_session : sdm_session_t
  shell_cfg : shell_config_t
  read_len : Int
  rx : List RxStep
deriving DecidableEq, Repr

/-- The variables of `main` that live across iterations. -/
structure LoopState where
  rc : Int
  session : sdm_session_t
  cfg : shell_config_t
deriving DecidableEq, Repr

/-- How a part of an iteration ends. -/
inductive Flow where
  | next (st : LoopState)
  | continue (st : LoopState)
  | break (st : LoopState)
  | exit (status : Int)
  | undefined
deriving DecidableEq, Repr

/-- The loop `do { rc = sdm_handle_rx_data(...); ... len = 0; } while (rc > 0)`.
`none` when the answers end before the loop does. -/
def handle_rx_loop : List RxStep → Int → List Event → Option (Int × sdm_session_t × List Event)
  | [], _, _ => none
  | s :: rx, len, log =>
    let log := log ++ [Event.handle_rx_data len]
    let rc := s.rc
    let log :=
      if len ≠ 0 ∧ (s.session.rx_data_len = 0 ∨ rc = 0) then
        log ++ [Event.forced_update_display]
      else log
    if rc > 0 then handle_rx_loop rx 0 log else some (rc, s.session, log)

/-- The iteration from its top to the end of the input block: `next` when
control reaches `if (FD_ISSET(sdm_session->sockfd, &rfds))`. -/
def before_transport (SHELL_EOF : Int) (st : LoopState) (e : IterEnv) : Flow × List Event :=
  match readiness_set st.session st.cfg with
  | Readiness.undefined => (Flow.undefined, [])
  | Readiness.leave => (Flow.break st, [])
  | Readiness.wait rfds maxfd tv_sec tv_usec =>
    let log := [Event.update_promt_state, Event.select rfds maxfd tv_sec tv_usec]
    let rc := e.select.rv
    if rc = -1 ∧ e.select.errno = EINTR then
      (Flow.continue { st with rc := rc }, log)
    else if rc = -1 then
      (Flow.exit 1, log ++ [Event.err 1])
    else if rc = 0 then
      if st.session.state = SDM_STATE_INIT then
        let session := { st.session with state := SDM_STATE_IDLE }
        (Flow.continue { st with rc := rc, session := session }, log)
      else (Flow.continue { st with rc := rc }, log)
    else
      let input_ready : Bool :=
        match st.cfg.input with
        | none => false
        | some fd => decide (fd ∈ e.ready)
      if input_ready then
        let log := log ++ [Event.input_read]
        let rc := e.shell_rc
        let st : LoopState := ⟨rc, e.shell_session, e.shell_cfg⟩
        if rc < 0 then
          if !st.cfg.interactive then
            let rc := if rc = SHELL_EOF then 0 else rc
            let st := { st with rc := rc }
            if rc < 0 then (Flow.break st, log)
            else if st.session.state = SDM_STATE_IDLE then (Flow.break st, log)
            else (Flow.next st, log)
          else if rc = SHELL_EOF then (Flow.break { st with rc := 0 }, log)
          else (Flow.next st, log)
        else (Flow.next st, log)
      else (Flow.next { st with rc := rc }, log)

/-- The block `if (FD_ISSET(sdm_session->sockfd, &rfds)) { ... }` that ends
the iteration. -/
def transport_block (flags : Nat) (st : LoopState) (e : IterEnv) : Flow × List Event :=
  if st.session.sockfd ∈ e.ready then
    let log := [Event.sock_read]
    let len := e.read_len
    if len = 0 then (Flow.break st, log)
    else if len < 0 then (Flow.exit 1, log ++ [Event.err 1])
    else
      match handle_rx_loop e.rx len log with
      | none => (Flow.undefined, log)
      | some (rc, session, log) =>
        let st := { st with rc := rc, session := session }
        if rc < 0 ∧ (!st.cfg.interactive ∧ ¬ (flags &&& FLAG_IGNORE_ERRORS ≠ 0)) then
          (Flow.break st, log)
        else (Flow.continue st, log)
  else (Flow.continue st, [])

/-- One iteration of the main loop. -/
def iteration (SHELL_EOF : Int) (flags : Nat) (st : LoopState) (e : IterEnv) :
    Flow × List Event :=
  match before_transport SHELL_EOF st e with
  | (Flow.next st, log) =>
    let (flow, log2) := transport_block flags st e
    (flow, log ++ log2)
  | other => other

/-- Value `main` returns after the loop: `rc < 0 ? -rc : rc`, as an `int`. -/
def exit_status (rc : Int) : Int :=
  toInt32 (if rc < 0 then -rc else rc)

/-- Exit status of the process as its parent sees it: the low eight bits of
the value `main` returns or `exit` is given. -/
def process_exit_status (status : Int) : Int :=
  status % 256

/-- The main loop followed by the end of `main`: the value returned (or the
status given to `exit` by `err`) and everything done on the way.  `none` when
the answers of the outside world end before the loop does, or when the code
reaches `fileno(NULL)`. -/
def main_loop (SHELL_EOF : Int) (flags : Nat) :
    List IterEnv → LoopState → List Event → Option (Int × List Event)
  | [], _, _ => none
  | e :: envs, st, log =>
    match iteration SHELL_EOF flags st e with
    | (Flow.next st, log2) => main_loop SHELL_EOF flags envs st (log ++ log2)
    | (Flow.continue st, log2) => main_loop SHELL_EOF flags envs st (log ++ log2)
    | (Flow.break st, log2) =>
      some (exit_status st.rc, log ++ log2 ++ [Event.shell_deinit, Event.sdm_close])
    | (Flow.exit status, log2) => some (status, log ++ log2)
    | (Flow.undefined, _) => none

/-! ## Vocabulary of the properties -/

/-- Bytes delivered by a list of read results, in delivery order. -/
def delivered (trace : List ReadResult) : List Byte :=
  trace.flatMap ReadResult.bytes

/-- A read that delivers at least one byte. -/
def ReadResult.isDelivery (r : ReadResult) : Prop := r.rv > 0

/-- A read that fails with `EAGAIN` or `EINTR`. -/
def ReadResult.isTransient (r : ReadResult) : Prop :=
  r.rv < 0 ∧ (r.errno = EAGAIN ∨ r.errno = EINTR)

instance (r : ReadResult) : Decidable r.isDelivery := by
  unfold ReadResult.isDelivery; infer_instance

instance (r : ReadResult) : Decidable r.isTransient := by
  unfold ReadResult.isTransient; infer_instance

/-- The `read` calls to expect for a list of results when every call asks for
the bytes still missing at the offset equal to the number of bytes received
before it. -/
def read_calls (fd req : Int) : List ReadResult → Int → List SysCall
  | [], _ => []
  | r :: t, offset =>
    SysCall.read fd offset (req - offset) :: read_calls fd req t (offset + r.bytes.length)

/-- End-of-stream: a read that returns 0. -/
def eof : ReadResult := ReadResult.data []

/-- A TCP stream record with the given direction and descriptor. -/
def tcp_stream (direction : Direction) (fd : Int) : sdm_stream_t :=
  ⟨direction, none, "TCP", ⟨0, none, fd, ⟨0, 0, 0⟩⟩⟩

/-- A buffer of zero bytes. -/
def zero_mem : Mem := fun _ => 0

/-- Bytes a `write` call accepted. -/
def WriteResult.count : WriteResult → Nat
  | .accepted n => n
  | .fail _ => 0

/-- Bytes accepted by a list of write results. -/
def accepted (trace : List WriteResult) : Nat :=
  (trace.map WriteResult.count).sum

/-- A write that ends the loop before completion: it returns 0, or it fails
with an `errno` other than `EAGAIN` and `EINTR`. -/
def WriteResult.isStop (r : WriteResult) : Prop :=
  r.rv = 0 ∨ (r.rv < 0 ∧ ¬ (r.errno = EAGAIN ∨ r.errno = EINTR))

instance (r : WriteResult) : Decidable r.isStop := by
  unfold WriteResult.isStop; infer_instance

/-- The non-empty `:`-separated tokens of an address specification. -/
def spec_fields (args : List Char) : List (List Char) :=
  (args.splitOn ':').filter (fun t => !t.isEmpty)

/-- An argument string `stream_open` is to reject: absent, or with fewer than
three non-empty tokens, or with a first token other than `connect` and
`listen`. -/
def malformed_args (args : Option (List Char)) : Prop :=
  match args with
  | none => True
  | some a =>
    (spec_fields a).length < 3 ∨
      ((spec_fields a).head? ≠ some "connect".toList ∧
        (spec_fields a).head? ≠ some "listen".toList)

instance (args : Option (List Char)) : Decidable (malformed_args args) := by
  unfold malformed_args
  cases args <;> infer_instance

/-- A stand-in for the C library, for evaluating `stream_open` on concrete
inputs. -/
def simple_libc : Libc :=
  ⟨fun _ => 0, fun _ => 0, fun p => p, fun _ => ""⟩

/-- A stream as `sdm_stream_tcp_new` leaves it, for the address
`connect:127.0.0.1:4200`. -/
def fresh_stream (direction : Direction) : sdm_stream_t :=
  (sdm_stream_tcp_new 0
    ⟨direction, some "connect:127.0.0.1:4200".toList, "", ⟨0, none, 0, ⟨0, 0, 0⟩⟩⟩).2

/-- Linux value of `ECONNRESET`. -/
def ECONNRESET : Int := 104
/-- Linux value of `ECONNREFUSED`. -/
def ECONNREFUSED : Int := 111

/-- An iteration of a script run: the transport alone is ready and delivers
5 bytes; `sdm_handle_rx_data` returns 1 and then -3. -/
def script_error_iteration : IterEnv :=
  ⟨⟨1, 0⟩, [3], 0, ⟨3, SDM_STATE_IDLE, 0⟩, ⟨false, some 7⟩, 5,
    [⟨1, ⟨3, SDM_STATE_WAIT_REPLY, 0⟩⟩, ⟨-3, ⟨3, SDM_STATE_IDLE, 0⟩⟩]⟩

/-- An iteration of a script run: the transport alone is ready and delivers
5 bytes; the one `sdm_handle_rx_data` call on them returns -256. -/
def script_error_256_iteration : IterEnv :=
  ⟨⟨1, 0⟩, [3], 0, ⟨3, SDM_STATE_IDLE, 0⟩, ⟨false, some 7⟩, 5,
    [⟨-256, ⟨3, SDM_STATE_IDLE, 0⟩⟩]⟩

/-- An iteration in which the input source is ready and the shell reports
end of input. -/
def next_command_iteration : IterEnv :=
  ⟨⟨1, 0⟩, [7], -1, ⟨3, SDM_STATE_IDLE, 0⟩, ⟨false, some 7⟩, 5, []⟩

/-! ## Properties of `stream_read` -/

theorem store_nil (mem : Mem) (offset : Int) : store mem offset [] = mem := by
  funext i
  simp [store]

theorem store_store (mem : Mem) (offset : Int) (a b : List Byte) :
    store (store mem offset a) (offset + a.length) b = store mem offset (a ++ b) := by
  funext i
  simp only [store, List.length_append, Nat.cast_add]
  by_cases h1 : offset ≤ (i : Int) ∧ (i : Int) < offset + a.length
  · have h2 : ¬ (offset + (a.length : Int) ≤ (i : Int) ∧ (i : Int) < offset + a.length + b.length) := by omega
    have h3 : offset ≤ (i : Int) ∧ (i : Int) < offset + (a.length + b.length) := by omega
    rw [if_neg h2, if_pos h1, if_pos h3]
    have : ((i : Int) - offset).toNat < a.length := by omega
    simp [List.getD_eq_getElem?_getD, List.getElem?_append_left this]
  · by_cases h2 : offset + (a.length : Int) ≤ (i : Int) ∧ (i : Int) < offset + a.length + b.length
    · have h3 : offset ≤ (i : Int) ∧ (i : Int) < offset + (a.length + b.length) := by omega
      rw [if_pos h2, if_pos h3]
      have e : ((i : Int) - offset).toNat = a.length + ((i : Int) - (offset + a.length)).toNat := by omega
      have : a.length ≤ ((i : Int) - offset).toNat := by omega
      simp [List.getD_eq_getElem?_getD, List.getElem?_append_right this]
      congr 2
      omega
    · have h3 : ¬ (offset ≤ (i : Int) ∧ (i : Int) < offset + (a.length + b.length)) := by omega
      rw [if_neg h2, if_neg h1, if_neg h3]

theorem firstBytes_store (mem : Mem) (bytes : List Byte) :
    firstBytes (store mem 0 bytes) bytes.length = bytes := by
  apply List.ext_getElem
  · simp [firstBytes]
  · intro i h1 h2
    simp [firstBytes, store] at h1 ⊢
    simp [h1, h2]

theorem delivered_cons (r : ReadResult) (t : List ReadResult) :
    delivered (r :: t) = r.bytes ++ delivered t := by
  simp [delivered]

theorem delivered_append (a b : List ReadResult) :
    delivered (a ++ b) = delivered a ++ delivered b := by
  simp [delivered]

theorem stream_read_loop_sound (fd req : Int) :
    ∀ (env : List ReadResult) (offset : Int) (samples : Mem) (calls : List SysCall)
      (l : ReadLoop),
      stream_read_loop fd req env offset samples calls = some l →
      ∃ consumed, env = consumed ++ l.rest ∧
        l.calls = calls ++ read_calls fd req consumed offset ∧
        l.offset = offset + (delivered consumed).length := by
  intro env
  induction env with
  | nil => intro _ _ _ _ h; simp [stream_read_loop] at h
  | cons r t ih =>
    intro offset samples calls l h
    simp only [stream_read_loop] at h
    have key : ∀ (o : Int) (s : Mem), o = offset + r.bytes.length →
        stream_read_loop fd req t o s (calls ++ [SysCall.read fd offset (req - offset)])
          = some l →
        ∃ consumed, r :: t = consumed ++ l.rest ∧
          l.calls = calls ++ read_calls fd req consumed offset ∧
          l.offset = offset + (delivered consumed).length := by
      intro o s ho hl
      obtain ⟨cs, h1, h2, h3⟩ := ih o s _ l hl
      refine ⟨r :: cs, by rw [h1]; rfl, ?_, ?_⟩
      · rw [h2, ho]; simp [read_calls]
      · rw [h3, ho, delivered_cons, List.length_append]; push_cast; omega
    have base : ∀ (rv o : Int) (s : Mem), o = offset + r.bytes.length →
        l = ⟨rv, o, s, calls ++ [SysCall.read fd offset (req - offset)], t⟩ →
        ∃ consumed, r :: t = consumed ++ l.rest ∧
          l.calls = calls ++ read_calls fd req consumed offset ∧
          l.offset = offset + (delivered consumed).length := by
      intro rv o s ho hl
      subst hl
      exact ⟨[r], rfl, by simp [read_calls], by simp [delivered, ho]⟩
    cases r with
    | data bs =>
      simp only [ReadResult.rv, ReadResult.errno, ReadResult.bytes] at h key base
      by_cases hpos : (bs.length : Int) > 0
      · rw [if_pos hpos] at h
        by_cases hlt : offset + (bs.length : Int) < req
        · rw [if_pos hlt] at h
          exact key _ _ rfl h
        · rw [if_neg hlt, Option.some.injEq] at h
          exact base _ _ _ rfl h.symm
      · have hb : (bs.length : Int) = 0 := by omega
        rw [if_neg hpos, if_neg (by omega), Option.some.injEq] at h
        exact base _ _ _ (by omega) h.symm
    | fail e =>
      simp only [ReadResult.rv, ReadResult.errno, ReadResult.bytes] at h key base
      rw [if_neg (by decide)] at h
      by_cases htr : (-1 : Int) < 0 ∧ (e = EAGAIN ∨ e = EINTR)
      · rw [if_pos htr] at h
        by_cases hlt : offset < req
        · rw [if_pos hlt] at h
          exact key _ _ (by simp) h
        · rw [if_neg hlt, Option.some.injEq] at h
          exact base _ _ _ (by simp) h.symm
      · rw [if_neg htr, Option.some.injEq] at h
        exact base _ _ _ (by simp) h.symm

theorem stream_read_loop_full (fd req : Int) :
    ∀ (trace rest : List ReadResult) (offset : Int) (samples : Mem) (calls : List SysCall),
      (∀ r ∈ trace, r.isDelivery ∨ r.isTransient) → trace ≠ [] →
      offset + (delivered trace).length = req →
      ∃ l, stream_read_loop fd req (trace ++ rest) offset samples calls = some l ∧
        l.rv ≠ 0 ∧ l.offset = req ∧ l.samples = store samples offset (delivered trace) := by
  intro trace
  induction trace with
  | nil => intro _ _ _ _ _ h; exact absurd rfl h
  | cons r t ih =>
    intro rest offset samples calls hall _ hsum
    have ht : ∀ r ∈ t, r.isDelivery ∨ r.isTransient := fun x hx => hall x (List.mem_cons_of_mem _ hx)
    rw [delivered_cons, List.length_append] at hsum
    cases r with
    | data bs =>
      have hr := hall (.data bs) (List.mem_cons_self _ _)
      have hpos : (bs.length : Int) > 0 := by
        rcases hr with h | h
        · exact h
        · exact absurd h.1 (by simp [ReadResult.rv])
      simp only [ReadResult.bytes] at hsum
      simp only [List.cons_append, stream_read_loop, ReadResult.rv, ReadResult.bytes, if_pos hpos]
      by_cases hlt : offset + (bs.length : Int) < req
      · rw [if_pos hlt]
        have hne : t ≠ [] := by
          intro h; subst h; simp [delivered] at hsum; omega
        obtain ⟨l, h1, h2, h3, h4⟩ := ih rest (offset + bs.length) (store samples offset bs)
          (calls ++ [SysCall.read fd offset (req - offset)]) ht hne (by push_cast at hsum ⊢; omega)
        refine ⟨l, h1, h2, h3, ?_⟩
        rw [h4, delivered_cons, store_store]
        rfl
      · rw [if_neg hlt]
        refine ⟨_, rfl, ?_, ?_, ?_⟩
        · simp only; omega
        · simp only; push_cast at hsum; omega
        · simp only
          have : delivered t = [] := by
            apply List.eq_nil_of_length_eq_zero; push_cast at hsum; omega
          rw [delivered_cons, this]; simp [ReadResult.bytes]
    | fail e =>
      have hr := hall (.fail e) (List.mem_cons_self _ _)
      have htr : (-1 : Int) < 0 ∧ (e = EAGAIN ∨ e = EINTR) := by
        rcases hr with h | h
        · exact absurd h (by simp [ReadResult.isDelivery, ReadResult.rv])
        · exact h
      simp only [ReadResult.bytes, List.length_nil, Nat.cast_zero] at hsum
      have hnp : ¬ ((-1 : Int) > 0) := by decide
      simp only [List.cons_append, stream_read_loop, ReadResult.rv, ReadResult.errno, if_neg hnp,
        if_pos htr]
      by_cases hlt : offset < req
      · rw [if_pos hlt]
        have hne : t ≠ [] := by
          intro h; subst h; simp [delivered] at hsum; omega
        obtain ⟨l, h1, h2, h3, h4⟩ := ih rest offset samples
          (calls ++ [SysCall.read fd offset (req - offset)]) ht hne (by push_cast at hsum ⊢; omega)
        refine ⟨l, h1, h2, h3, ?_⟩
        rw [h4, delivered_cons]; simp [ReadResult.bytes]
      · rw [if_neg hlt]
        refine ⟨_, rfl, ?_, ?_, ?_⟩
        · simp only; decide
        · simp only; push_cast at hsum; omega
        · simp only
          have : delivered t = [] := by
            apply List.eq_nil_of_length_eq_zero; push_cast at hsum; omega
          rw [delivered_cons, this]; simp [ReadResult.bytes, store_nil]

theorem stream_read_loop_stop (fd req : Int) (s : ReadResult)
    (hs1 : ¬ s.isDelivery) (hs2 : ¬ s.isTransient) :
    ∀ (trace rest : List ReadResult) (offset : Int) (samples : Mem) (calls : List SysCall),
      (∀ r ∈ trace, r.isDelivery ∨ r.isTransient) →
      offset + (delivered trace).length < req →
      ∃ l, stream_read_loop fd req (trace ++ s :: rest) offset samples calls = some l ∧
        l.rv = s.rv ∧ l.offset = offset + (delivered trace).length ∧
        l.samples = store samples offset (delivered trace) ∧ l.rest = rest := by
  intro trace
  induction trace with
  | nil =>
    intro rest offset samples calls _ _
    have h1 : ¬ (s.rv > 0) := hs1
    have h2 : ¬ (s.rv < 0 ∧ (s.errno = EAGAIN ∨ s.errno = EINTR)) := hs2
    simp only [List.nil_append, stream_read_loop, if_neg h1, if_neg h2]
    exact ⟨_, rfl, rfl, by simp [delivered], by simp [delivered, store_nil], rfl⟩
  | cons r t ih =>
    intro rest offset samples calls hall hsum
    have ht : ∀ r ∈ t, r.isDelivery ∨ r.isTransient :=
      fun x hx => hall x (List.mem_cons_of_mem _ hx)
    rw [delivered_cons, List.length_append] at hsum
    cases r with
    | data bs =>
      have hr := hall (.data bs) (List.mem_cons_self _ _)
      have hpos : (bs.length : Int) > 0 := by
        rcases hr with h | h
        · exact h
        · exact absurd h.1 (by simp [ReadResult.rv])
      simp only [ReadResult.bytes] at hsum
      have hlt : offset + (bs.length : Int) < req := by push_cast at hsum; omega
      simp only [List.cons_append, stream_read_loop, ReadResult.rv, ReadResult.bytes, if_pos hpos,
        if_pos hlt]
      obtain ⟨l, h1, h2, h3, h4, h5⟩ := ih rest (offset + bs.length) (store samples offset bs)
        (calls ++ [SysCall.read fd offset (req - offset)]) ht (by push_cast at hsum ⊢; omega)
      refine ⟨l, h1, h2, ?_, ?_, h5⟩
      · rw [h3, delivered_cons, List.length_append]; simp only [ReadResult.bytes]
        push_cast; omega
      · rw [h4, delivered_cons, store_store]; rfl
    | fail e =>
      have hr := hall (.fail e) (List.mem_cons_self _ _)
      have htr : (-1 : Int) < 0 ∧ (e = EAGAIN ∨ e = EINTR) := by
        rcases hr with h | h
        · exact absurd h (by simp [ReadResult.isDelivery, ReadResult.rv])
        · exact h
      simp only [ReadResult.bytes, List.length_nil, Nat.cast_zero] at hsum
      have hnp : ¬ ((-1 : Int) > 0) := by decide
      have hlt : offset < req := by push_cast at hsum; omega
      simp only [List.cons_append, stream_read_loop, ReadResult.rv, ReadResult.errno, if_neg hnp,
        if_pos htr, if_pos hlt]
      obtain ⟨l, h1, h2, h3, h4, h5⟩ := ih rest offset samples
        (calls ++ [SysCall.read fd offset (req - offset)]) ht (by push_cast at hsum ⊢; omega)
      refine ⟨l, h1, h2, ?_, ?_, h5⟩
      · rw [h3, delivered_cons]; simp [ReadResult.bytes]
      · rw [h4, delivered_cons]; simp [ReadResult.bytes]

theorem stream_read_loop_done (fd req : Int) :
    ∀ (trace rest : List ReadResult) (offset : Int) (samples : Mem) (calls : List SysCall),
      (∀ r ∈ trace, r.isDelivery ∨ r.isTransient) → trace ≠ [] →
      offset + (delivered trace).length = req → (∀ r ∈ trace, r.isDelivery) →
      ∃ l, stream_read_loop fd req (trace ++ rest) offset samples calls = some l ∧
        l.rv ≠ 0 ∧ l.offset = req ∧ l.samples = store samples offset (delivered trace) ∧
        l.rest = rest := by
  intro trace
  induction trace with
  | nil => intro _ _ _ _ _ h; exact absurd rfl h
  | cons r t ih =>
    intro rest offset samples calls hall _ hsum hdel
    have ht : ∀ r ∈ t, r.isDelivery ∨ r.isTransient :=
      fun x hx => hall x (List.mem_cons_of_mem _ hx)
    have ht2 : ∀ r ∈ t, r.isDelivery := fun x hx => hdel x (List.mem_cons_of_mem _ hx)
    rw [delivered_cons, List.length_append] at hsum
    have hpos : r.rv > 0 := hdel r (List.mem_cons_self _ _)
    simp only [List.cons_append, stream_read_loop, if_pos hpos]
    cases r with
    | fail e => exact absurd hpos (by simp [ReadResult.rv])
    | data bs =>
      simp only [ReadResult.rv, ReadResult.bytes] at hsum hpos ⊢
      by_cases hlt : offset + (bs.length : Int) < req
      · rw [if_pos hlt]
        have hne : t ≠ [] := by
          intro h; subst h; simp [delivered] at hsum; omega
        obtain ⟨l, h1, h2, h3, h4, h5⟩ := ih rest (offset + bs.length) (store samples offset bs)
          (calls ++ [SysCall.read fd offset (req - offset)]) ht hne
          (by push_cast at hsum ⊢; omega) ht2
        refine ⟨l, h1, h2, h3, ?_, h5⟩
        rw [h4, delivered_cons, store_store]
        rfl
      · rw [if_neg hlt]
        have hnil : t = [] := by
          cases t with
          | nil => rfl
          | cons x xs =>
            have hx : x.rv > 0 := ht2 x (List.mem_cons_self _ _)
            rw [delivered_cons, List.length_append] at hsum
            cases x with
            | fail e => exact absurd hx (by simp [ReadResult.rv])
            | data cs =>
              simp only [ReadResult.rv, ReadResult.bytes] at hx hsum
              push_cast at hsum; omega
        subst hnil
        refine ⟨_, rfl, ?_, ?_, ?_, ?_⟩
        · simp only; omega
        · simp only; simp [delivered] at hsum; omega
        · simp [delivered, ReadResult.bytes]
        · simp

theorem requested_length_of_eq (N : Nat) (h : 2 * (N : Int) ≤ INT_MAX) :
    requested_length_of N = 2 * (N : Int) := by
  unfold INT_MAX at h
  unfold requested_length_of toInt32
  simp only
  have h1 : (2 * N) % 4294967296 = 2 * N := Nat.mod_eq_of_lt (by omega)
  rw [h1]
  have h2 : ((2 * N : Nat) : Int) % 4294967296 = 2 * (N : Int) := by
    push_cast; omega
  rw [h2, if_pos (by omega)]

theorem sample_count_as_int (N : Nat) (h : 2 * (N : Int) ≤ INT_MAX) :
    toInt32 ((N % 4294967296 : Nat) : Int) = (N : Int) := by
  unfold INT_MAX at h
  unfold toInt32
  simp only
  have h1 : N % 4294967296 = N := Nat.mod_eq_of_lt (by omega)
  rw [h1]
  have h2 : (N : Int) % 4294967296 = (N : Int) := by omega
  rw [h2, if_pos (by omega)]

/-- Helper shared by the delivery theorems: a run of `stream_read` on an input
stream that is fed deliveries and transient failures adding up to exactly the
requested length returns the sample count and holds the bytes in order. -/
theorem stream_read_of_full (SDM_ERROR_STREAM : Int) (stream : sdm_stream_t) (samples : Mem)
    (N : Nat) (trace rest : List ReadResult)
    (hdir : stream.direction = STREAM_INPUT) (h2N : 2 * (N : Int) ≤ INT_MAX)
    (htrace : ∀ r ∈ trace, r.isDelivery ∨ r.isTransient) (hne : trace ≠ [])
    (hsum : (delivered trace).length = 2 * N) :
    ∃ out, stream_read SDM_ERROR_STREAM stream samples N (trace ++ rest) = some out ∧
      out.ret = N ∧ firstBytes out.samples (2 * N) = delivered trace ∧
      (∀ i, 2 * N ≤ i → out.samples i = samples i) ∧ out.stream = stream ∧
      ∃ consumed, trace ++ rest = consumed ++ out.rest ∧
        out.calls = read_calls stream.pdata.fd (2 * N) consumed 0 := by
  have hreq := requested_length_of_eq N h2N
  obtain ⟨l, h1, h2, h3, h4⟩ := stream_read_loop_full stream.pdata.fd (2 * (N : Int)) trace rest 0
    samples [] htrace hne (by rw [hsum]; push_cast; omega)
  obtain ⟨consumed, hc1, hc2, _⟩ := stream_read_loop_sound _ _ _ _ _ _ _ h1
  have hd : ¬ (stream.direction = STREAM_OUTPUT) := by rw [hdir]; decide
  simp only [stream_read, hreq, if_neg hd, h1, if_neg h2, if_pos h3]
  refine ⟨_, rfl, ?_, ?_, ?_, ?_, ?_⟩
  · dsimp only
    exact sample_count_as_int N h2N
  · simp only [h4]; rw [← hsum]; exact firstBytes_store _ _
  · intro i hi
    simp only [h4, store]
    rw [if_neg]
    rw [hsum]; push_cast; omega
  · rfl
  · exact ⟨consumed, hc1, by simpa using hc2⟩

/-- With no sample requested, `stream_read` makes one `read` call and returns
0 whatever that call reports (it cannot deliver bytes into a zero-length
request). -/
theorem stream_read_zero_samples (SDM_ERROR_STREAM : Int) (stream : sdm_stream_t)
    (samples : Mem) (r : ReadResult) (rest : List ReadResult)
    (hdir : stream.direction = STREAM_INPUT) (hr : r.rv ≤ 0) :
    ∃ out, stream_read SDM_ERROR_STREAM stream samples 0 (r :: rest) = some out ∧
      out.ret = 0 ∧ out.rest = rest ∧ out.calls = [SysCall.read stream.pdata.fd 0 0] ∧
      out.samples = samples := by
  have hd : ¬ (stream.direction = STREAM_OUTPUT) := by rw [hdir]; decide
  have hreq : requested_length_of 0 = 0 := by decide
  have hpos : ¬ (r.rv > 0) := by omega
  simp only [stream_read, hreq, if_neg hd, stream_read_loop, if_neg hpos]
  by_cases htr : r.rv < 0 ∧ (r.errno = EAGAIN ∨ r.errno = EINTR)
  · simp only [if_pos htr, lt_irrefl, if_false]
    have h0 : ¬ (r.rv = 0) := by omega
    simp only [if_neg h0, if_true]
    refine ⟨_, rfl, ?_, rfl, ?_, rfl⟩
    · dsimp only; decide
    · simp
  · simp only [if_neg htr]
    by_cases h0 : r.rv = 0
    · simp only [if_pos h0]
      refine ⟨_, rfl, ?_, rfl, ?_, rfl⟩
      · dsimp only; decide
      · simp
    · simp only [if_neg h0, if_true]
      refine ⟨_, rfl, ?_, rfl, ?_, rfl⟩
      · dsimp only; decide
      · simp

/-- C1. Full delivery: on an INPUT stream, when the successive `read` calls
deliver positive amounts of bytes that add up to exactly `2*N`, with `EAGAIN`
and `EINTR` failures anywhere in between and nothing else, `stream_read`
returns exactly `N` and the first `2*N` bytes of the buffer are the delivered
bytes in delivery order (the bytes behind them are untouched); every `read`
call it makes asks for the bytes still missing, at the offset equal to the
number of bytes received before it.  When the sequence is empty (possible for
`N = 0` only) the code still makes one `read` call of length zero; its result,
which cannot deliver bytes, is taken from what follows. -/
theorem stream_read_full_delivery (SDM_ERROR_STREAM : Int) (stream : sdm_stream_t)
    (samples : Mem) (N : Nat) (trace rest : List ReadResult)
    (hdir : stream.direction = STREAM_INPUT) (h2N : 2 * (N : Int) ≤ INT_MAX)
    (htrace : ∀ r ∈ trace, r.isDelivery ∨ r.isTransient)
    (hsum : (delivered trace).length = 2 * N)
    (hfirst : trace = [] → ∃ r rest2, rest = r :: rest2 ∧ r.rv ≤ 0) :
    ∃ out, stream_read SDM_ERROR_STREAM stream samples N (trace ++ rest) = some out ∧
      out.ret = N ∧ firstBytes out.samples (2 * N) = delivered trace ∧
      (∀ i, 2 * N ≤ i → out.samples i = samples i) ∧
      ∃ consumed, trace ++ rest = consumed ++ out.rest ∧
        out.calls = read_calls stream.pdata.fd (2 * N) consumed 0 := by
  by_cases hne : trace = []
  · obtain ⟨r, rest2, hrest, hr⟩ := hfirst hne
    subst hne
    have hN : N = 0 := by simp [delivered] at hsum; omega
    subst hN
    subst hrest
    obtain ⟨out, h1, h2, h3, h4, h5⟩ :=
      stream_read_zero_samples SDM_ERROR_STREAM stream samples r rest2 hdir hr
    refine ⟨out, by simpa using h1, by simpa using h2, by simp [firstBytes, delivered], ?_,
      [r], by simp [h3], by simp [h4, read_calls]⟩
    intro i _
    rw [h5]
  · obtain ⟨out, h1, h2, h3, h4, _, h6⟩ :=
      stream_read_of_full SDM_ERROR_STREAM stream samples N trace rest hdir h2N htrace hne hsum
    exact ⟨out, h1, h2, h3, h4, h6⟩

/-- C2. Clean end-of-stream: on an INPUT stream, when `2*K + r` bytes
(`r < 2`, fewer than the `2*N` requested) arrive in any split into positive
deliveries, with `EAGAIN` and `EINTR` failures anywhere in between, and the
next `read` returns 0, `stream_read` returns `K`; that is the byte count
halved and rounded down, and it differs from a negative `SDM_ERROR_STREAM`.
The bytes received are in the buffer in order and the end-of-stream is the
last `read` made. -/
theorem stream_read_clean_eof (SDM_ERROR_STREAM : Int) (stream : sdm_stream_t)
    (samples : Mem) (N K r : Nat) (trace rest : List ReadResult)
    (hdir : stream.direction = STREAM_INPUT) (h2N : 2 * (N : Int) ≤ INT_MAX)
    (hr : r < 2) (hlt : 2 * K + r < 2 * N)
    (htrace : ∀ x ∈ trace, x.isDelivery ∨ x.isTransient)
    (hsum : (delivered trace).length = 2 * K + r) :
    ∃ out, stream_read SDM_ERROR_STREAM stream samples N (trace ++ eof :: rest) = some out ∧
      out.ret = K ∧ out.ret = ((delivered trace).length : Int) / 2 ∧
      (SDM_ERROR_STREAM < 0 → out.ret ≠ SDM_ERROR_STREAM) ∧
      firstBytes out.samples (2 * K + r) = delivered trace ∧ out.rest = rest ∧
      out.calls = read_calls stream.pdata.fd (2 * N) (trace ++ [eof]) 0 := by
  have hreq := requested_length_of_eq N h2N
  obtain ⟨l, h1, h2, h3, h4, h5⟩ := stream_read_loop_stop stream.pdata.fd (2 * (N : Int)) eof
    (by simp [eof, ReadResult.isDelivery, ReadResult.rv])
    (by simp [eof, ReadResult.isTransient, ReadResult.rv])
    trace rest 0 samples [] htrace (by rw [hsum]; push_cast; omega)
  obtain ⟨consumed, hc1, hc2, _⟩ := stream_read_loop_sound _ _ _ _ _ _ _ h1
  have hcons : consumed = trace ++ [eof] := by
    rw [h5] at hc1
    have : (trace ++ [eof]) ++ rest = consumed ++ rest := by simpa using hc1
    exact (List.append_cancel_right this).symm
  have hd : ¬ (stream.direction = STREAM_OUTPUT) := by rw [hdir]; decide
  have hrv : l.rv = 0 := by rw [h2]; simp [eof, ReadResult.rv]
  simp only [stream_read, hreq, if_neg hd, h1, if_pos hrv]
  have hK : Int.tdiv l.offset 2 = (K : Int) := by
    rw [h3, hsum, Int.tdiv_eq_ediv (by omega) (by omega)]
    push_cast; omega
  refine ⟨_, rfl, ?_, ?_, ?_, ?_, ?_, ?_⟩
  · dsimp only
    exact hK
  · simp only [hK, hsum]; push_cast; omega
  · intro hneg; simp only [hK]; omega
  · simp only [h4]; rw [← hsum]; exact firstBytes_store _ _
  · exact h5
  · rw [← hcons]; simpa using hc2

/-- C1, at a concrete input: two samples arriving as one byte, an `EAGAIN`
failure and three bytes. -/
theorem stream_read_full_delivery_witness :
    ∃ out, stream_read (-1) (tcp_stream STREAM_INPUT 5) zero_mem 2
        ([ReadResult.data [1], ReadResult.fail EAGAIN, ReadResult.data [2, 3, 4]] ++ [])
          = some out ∧
      out.ret = ((2 : Nat) : Int) ∧
      firstBytes out.samples (2 * 2)
        = delivered [ReadResult.data [1], ReadResult.fail EAGAIN, ReadResult.data [2, 3, 4]] ∧
      (∀ i, 2 * 2 ≤ i → out.samples i = zero_mem i) ∧
      ∃ consumed,
        [ReadResult.data [1], ReadResult.fail EAGAIN, ReadResult.data [2, 3, 4]] ++ []
          = consumed ++ out.rest ∧
        out.calls = read_calls (tcp_stream STREAM_INPUT 5).pdata.fd
          (2 * ((2 : Nat) : Int)) consumed 0 :=
  stream_read_full_delivery (-1) (tcp_stream STREAM_INPUT 5) zero_mem 2
    [ReadResult.data [1], ReadResult.fail EAGAIN, ReadResult.data [2, 3, 4]] []
    rfl (by decide) (by decide) (by decide) (fun h => absurd h (by decide))

/-- C2, at a concrete input: four samples requested, five bytes arrive in two
deliveries with an `EINTR` failure in between, then end-of-stream. -/
theorem stream_read_clean_eof_witness :
    ∃ out, stream_read (-1) (tcp_stream STREAM_INPUT 5) zero_mem 4
        ([ReadResult.data [1, 2], ReadResult.fail EINTR, ReadResult.data [3, 4, 5]]
          ++ eof :: []) = some out ∧
      out.ret = ((2 : Nat) : Int) ∧
      out.ret = ((delivered
        [ReadResult.data [1, 2], ReadResult.fail EINTR, ReadResult.data [3, 4, 5]]).length
          : Int) / 2 ∧
      ((-1 : Int) < 0 → out.ret ≠ -1) ∧
      firstBytes out.samples (2 * 2 + 1)
        = delivered [ReadResult.data [1, 2], ReadResult.fail EINTR, ReadResult.data [3, 4, 5]] ∧
      out.rest = [] ∧
      out.calls = read_calls (tcp_stream STREAM_INPUT 5).pdata.fd (2 * ((4 : Nat) : Int))
        ([ReadResult.data [1, 2], ReadResult.fail EINTR, ReadResult.data [3, 4, 5]] ++ [eof])
        0 :=
  stream_read_clean_eof (-1) (tcp_stream STREAM_INPUT 5) zero_mem 4 2 1
    [ReadResult.data [1, 2], ReadResult.fail EINTR, ReadResult.data [3, 4, 5]] []
    rfl (by decide) (by decide) (by decide) (by decide) (by decide)

/-- C3 as stated fails: ten bytes delivered in one piece, then the peer
closes; `stream_read` with `sample_count = 5` returns 5, not 4, and all ten
bytes are in the buffer. -/
theorem scenario_A_not_four :
    ∃ out, stream_read (-1) (tcp_stream STREAM_INPUT 5) zero_mem 5
        ([ReadResult.data [1, 2, 3, 4, 5, 6, 7, 8, 9, 10]] ++ [eof]) = some out ∧
      out.ret = 5 ∧ out.ret ≠ 4 ∧
      firstBytes out.samples 10 = [1, 2, 3, 4, 5, 6, 7, 8, 9, 10] := by
  obtain ⟨out, h1, h2, h3, _⟩ := stream_read_of_full (-1) (tcp_stream STREAM_INPUT 5) zero_mem 5
    [ReadResult.data [1, 2, 3, 4, 5, 6, 7, 8, 9, 10]] [eof]
    rfl (by decide) (by decide) (by decide) (by decide)
  refine ⟨out, h1, ?_, ?_, ?_⟩
  · rw [h2]; rfl
  · rw [h2]; decide
  · rw [h3]; rfl

/-- C3, amended. Scenario A: on an INPUT stream whose peer sends exactly ten
bytes and then closes, `stream_read` with `sample_count = 5` returns 5 for
every split of the ten bytes into non-empty deliveries; the buffer holds all
ten bytes in order and the end-of-stream is not even read. -/
theorem scenario_A_returns_five (SDM_ERROR_STREAM : Int) (stream : sdm_stream_t)
    (samples : Mem) (chunks : List (List Byte)) (rest : List ReadResult)
    (hdir : stream.direction = STREAM_INPUT)
    (hchunks : ∀ c ∈ chunks, c ≠ []) (hlen : chunks.flatten.length = 10) :
    ∃ out, stream_read SDM_ERROR_STREAM stream samples 5
        (chunks.map ReadResult.data ++ eof :: rest) = some out ∧
      out.ret = 5 ∧ firstBytes out.samples 10 = chunks.flatten ∧
      out.rest = eof :: rest := by
  have hdel : delivered (chunks.map ReadResult.data) = chunks.flatten := by
    simp only [delivered, List.flatMap, List.map_map]
    congr 1
    exact List.map_id' _
  have htrace : ∀ r ∈ chunks.map ReadResult.data, r.isDelivery ∨ r.isTransient := by
    intro r hr
    obtain ⟨c, hc, rfl⟩ := List.mem_map.mp hr
    left
    have := hchunks c hc
    simp only [ReadResult.isDelivery, ReadResult.rv]
    have : 0 < c.length := List.length_pos.mpr this
    omega
  have hne : chunks.map ReadResult.data ≠ [] := by
    intro h
    rw [List.map_eq_nil_iff] at h
    subst h
    simp at hlen
  have hreq := requested_length_of_eq 5 (by decide)
  obtain ⟨l, h1, h2, h3, h4, h5⟩ := stream_read_loop_done stream.pdata.fd (2 * ((5 : Nat) : Int))
    (chunks.map ReadResult.data) (eof :: rest) 0 samples [] htrace hne
    (by rw [hdel, hlen]; decide) (by
      intro r hr
      obtain ⟨c, hc, rfl⟩ := List.mem_map.mp hr
      have := hchunks c hc
      simp only [ReadResult.isDelivery, ReadResult.rv]
      have : 0 < c.length := List.length_pos.mpr this
      omega)
  have hd : ¬ (stream.direction = STREAM_OUTPUT) := by rw [hdir]; decide
  simp only [stream_read, hreq, if_neg hd, h1, if_neg h2, if_pos h3]
  refine ⟨_, rfl, ?_, ?_, ?_⟩
  · dsimp only
    exact sample_count_as_int 5 (by decide)
  · dsimp only
    rw [h4, hdel, ← hlen]; exact firstBytes_store _ _
  · exact h5

/-- C3 amended, at a concrete split: 3 + 7 bytes. -/
theorem scenario_A_returns_five_witness :
    ∃ out, stream_read (-1) (tcp_stream STREAM_INPUT 5) zero_mem 5
        ([[1, 2, 3], [4, 5, 6, 7, 8, 9, 10]].map ReadResult.data ++ eof :: []) = some out ∧
      out.ret = 5 ∧
      firstBytes out.samples 10 = [[1, 2, 3], [4, 5, 6, 7, 8, 9, 10]].flatten ∧
      out.rest = eof :: [] :=
  scenario_A_returns_five (-1) (tcp_stream STREAM_INPUT 5) zero_mem
    [[1, 2, 3], [4, 5, 6, 7, 8, 9, 10]] [] rfl (by decide) (by decide)

/-! ## Direction enforcement -/

/-- C5. Direction enforcement: `stream_read` on a `STREAM_OUTPUT` stream and
`stream_write` on a `STREAM_INPUT` stream return `SDM_ERROR_STREAM`, make no
call to the operating system (empty call log, no result consumed) and leave
the buffer and the stream record as they were, for every stream state, buffer
and sample count. -/
theorem direction_enforcement (SDM_ERROR_STREAM : Int) (stream : sdm_stream_t) (samples : Mem)
    (sample_count : Nat) (renv : List ReadResult) (wenv : List WriteResult) :
    (stream.direction = STREAM_OUTPUT →
      stream_read SDM_ERROR_STREAM stream samples sample_count renv
        = some ⟨SDM_ERROR_STREAM, stream, samples, [], renv⟩) ∧
    (stream.direction = STREAM_INPUT →
      stream_write SDM_ERROR_STREAM stream sample_count wenv
        = some ⟨SDM_ERROR_STREAM, stream, [], wenv⟩) := by
  constructor
  · intro h
    simp only [stream_read, if_pos h]
  · intro h
    simp only [stream_write, if_pos h]

/-- C5, at concrete inputs: the read side on an output stream. -/
theorem direction_enforcement_witness :
    (tcp_stream STREAM_OUTPUT 5).direction = STREAM_OUTPUT ∧
    stream_read (-1) (tcp_stream STREAM_OUTPUT 5) zero_mem 3 [ReadResult.data [1, 2]]
      = some ⟨-1, tcp_stream STREAM_OUTPUT 5, zero_mem, [], [ReadResult.data [1, 2]]⟩ :=
  ⟨rfl, (direction_enforcement (-1) (tcp_stream STREAM_OUTPUT 5) zero_mem 3
    [ReadResult.data [1, 2]] []).1 rfl⟩

/-! ## Properties of `stream_write` -/

theorem accepted_cons (r : WriteResult) (t : List WriteResult) :
    accepted (r :: t) = r.count + accepted t := by
  simp [accepted]

theorem stream_write_loop_sound (fd req : Int) :
    ∀ (env : List WriteResult) (offset : Int) (calls : List SysCall) (l : WriteLoop),
      stream_write_loop fd req env offset calls = some l →
      ∃ consumed, env = consumed ++ l.rest ∧ consumed ≠ [] ∧
        l.offset = offset + accepted consumed ∧
        (l.offset < req → ∃ s ∈ consumed, s.isStop) := by
  intro env
  induction env with
  | nil => intro _ _ _ h; simp [stream_write_loop] at h
  | cons r t ih =>
    intro offset calls l h
    simp only [stream_write_loop] at h
    have key : ∀ (o : Int) (c : List SysCall), o = offset + r.count →
        stream_write_loop fd req t o c = some l →
        ∃ consumed, r :: t = consumed ++ l.rest ∧ consumed ≠ [] ∧
          l.offset = offset + accepted consumed ∧
          (l.offset < req → ∃ s ∈ consumed, s.isStop) := by
      intro o c ho hl
      obtain ⟨cs, h1, _, h3, h4⟩ := ih o c l hl
      refine ⟨r :: cs, by rw [h1]; rfl, by simp, ?_, ?_⟩
      · rw [h3, ho, accepted_cons]; push_cast; omega
      · intro hlt
        obtain ⟨s, hs, hs2⟩ := h4 hlt
        exact ⟨s, List.mem_cons_of_mem _ hs, hs2⟩
    have base : ∀ (c : List SysCall), (¬ (offset + r.count < req) ∨ r.isStop) →
        l = ⟨r.rv, offset + r.count, c, t⟩ →
        ∃ consumed, r :: t = consumed ++ l.rest ∧ consumed ≠ [] ∧
          l.offset = offset + accepted consumed ∧
          (l.offset < req → ∃ s ∈ consumed, s.isStop) := by
      intro c hc hl
      subst hl
      refine ⟨[r], rfl, by simp, by simp [accepted], ?_⟩
      intro hlt
      rcases hc with hc | hc
      · exact absurd hlt hc
      · exact ⟨r, List.mem_singleton.mpr rfl, hc⟩
    cases r with
    | accepted n =>
      simp only [WriteResult.rv, WriteResult.errno] at h
      by_cases hpos : (n : Int) > 0
      · rw [if_pos hpos] at h
        by_cases hlt : offset + (n : Int) < req
        · rw [if_pos hlt] at h
          exact key _ _ rfl h
        · rw [if_neg hlt, Option.some.injEq] at h
          exact base _ (Or.inl hlt) h.symm
      · have hn : n = 0 := by omega
        subst hn
        rw [if_neg hpos, if_neg (by simp)] at h
        rw [Option.some.injEq] at h
        refine base (calls ++ [SysCall.write fd offset (req - offset)]) (Or.inr ?_)
          (by rw [← h]; simp [WriteResult.count, WriteResult.rv])
        simp [WriteResult.isStop, WriteResult.rv]
    | fail e =>
      simp only [WriteResult.rv, WriteResult.errno] at h
      rw [if_neg (by decide)] at h
      by_cases htr : (-1 : Int) < 0 ∧ (e = EAGAIN ∨ e = EINTR)
      · rw [if_pos htr] at h
        by_cases hlt : offset < req
        · rw [if_pos hlt] at h
          exact key _ _ (by simp [WriteResult.count]) h
        · rw [if_neg hlt, Option.some.injEq] at h
          exact base (calls ++ [SysCall.write fd offset (req - offset)])
            (Or.inl (by simpa [WriteResult.count] using hlt))
            (by rw [← h]; simp [WriteResult.count, WriteResult.rv])
      · rw [if_neg htr, Option.some.injEq] at h
        refine base (calls ++ [SysCall.write fd offset (req - offset)]) (Or.inr ?_)
          (by rw [← h]; simp [WriteResult.count, WriteResult.rv])
        simp only [WriteResult.isStop, WriteResult.rv, WriteResult.errno]
        right
        exact ⟨by decide, fun hh => htr ⟨by decide, hh⟩⟩

theorem stream_write_loop_total (fd req : Int) :
    ∀ (env : List WriteResult) (offset : Int) (calls : List SysCall),
      ((∃ s ∈ env, s.isStop) ∨ (env ≠ [] ∧ req ≤ offset + accepted env)) →
      ∃ l, stream_write_loop fd req env offset calls = some l := by
  intro env
  induction env with
  | nil =>
    intro _ _ h
    rcases h with ⟨s, hs, _⟩ | ⟨h, _⟩
    · simp at hs
    · exact absurd rfl h
  | cons r t ih =>
    intro offset calls h
    have hnext : ∀ (o : Int) (c : List SysCall), o = offset + r.count → o < req → ¬ r.isStop →
        ∃ l, stream_write_loop fd req t o c = some l := by
      intro o c ho hlt hstop
      apply ih
      rcases h with ⟨s, hs, hs2⟩ | ⟨_, h⟩
      · left
        rcases List.mem_cons.mp hs with rfl | hs
        · exact absurd hs2 hstop
        · exact ⟨s, hs, hs2⟩
      · right
        rw [accepted_cons] at h
        refine ⟨?_, by rw [ho]; push_cast at h ⊢; omega⟩
        intro ht
        subst ht
        simp [accepted] at h
        omega
    simp only [stream_write_loop]
    cases r with
    | accepted n =>
      simp only [WriteResult.rv, WriteResult.errno]
      by_cases hpos : (n : Int) > 0
      · rw [if_pos hpos]
        by_cases hlt : offset + (n : Int) < req
        · rw [if_pos hlt]
          exact hnext _ _ rfl hlt (by
            simp only [WriteResult.isStop, WriteResult.rv]; omega)
        · rw [if_neg hlt]; exact ⟨_, rfl⟩
      · have hn : n = 0 := by omega
        subst hn
        rw [if_neg hpos, if_neg (by simp)]
        exact ⟨_, rfl⟩
    | fail e =>
      simp only [WriteResult.rv, WriteResult.errno]
      rw [if_neg (by decide)]
      by_cases htr : (-1 : Int) < 0 ∧ (e = EAGAIN ∨ e = EINTR)
      · rw [if_pos htr]
        by_cases hlt : offset < req
        · rw [if_pos hlt]
          exact hnext _ _ (by simp [WriteResult.count]) hlt (by
            simp only [WriteResult.isStop, WriteResult.rv, WriteResult.errno]
            intro hh
            rcases hh with hh | ⟨_, hh⟩
            · exact absurd hh (by decide)
            · exact hh htr.2)
        · rw [if_neg hlt]; exact ⟨_, rfl⟩
      · rw [if_neg htr]; exact ⟨_, rfl⟩

/-- C4. Write atomicity: on an OUTPUT stream with `2*N <= INT_MAX` and a
negative `SDM_ERROR_STREAM`, every run of `stream_write` that ends returns `N`
exactly when the byte counts accepted by the `write` calls it made add up to
`2*N`, and returns `SDM_ERROR_STREAM` otherwise; a run that ends short of
`2*N` bytes ended on a `write` that returned 0 or failed with an `errno` other
than `EAGAIN`/`EINTR`; the value returned is never a count strictly between 0
and `N`.  The run does end as soon as the results contain such a `write`, or
accept `2*N` bytes or more. -/
theorem stream_write_atomicity (SDM_ERROR_STREAM : Int) (stream : sdm_stream_t) (N : Nat)
    (env : List WriteResult)
    (hdir : stream.direction = STREAM_OUTPUT) (h2N : 2 * (N : Int) ≤ INT_MAX)
    (herr : SDM_ERROR_STREAM < 0) :
    (∀ out, stream_write SDM_ERROR_STREAM stream N env = some out →
      ∃ consumed, env = consumed ++ out.rest ∧
        (out.ret = N ↔ accepted consumed = 2 * N) ∧
        (accepted consumed ≠ 2 * N → out.ret = SDM_ERROR_STREAM) ∧
        (accepted consumed < 2 * N → ∃ s ∈ consumed, s.isStop) ∧
        ¬ (0 < out.ret ∧ out.ret < N)) ∧
    (((∃ s ∈ env, s.isStop) ∨ (env ≠ [] ∧ 2 * N ≤ accepted env)) →
      ∃ out, stream_write SDM_ERROR_STREAM stream N env = some out) := by
  have hreq := requested_length_of_eq N h2N
  have hd : ¬ (stream.direction = STREAM_INPUT) := by rw [hdir]; decide
  constructor
  · intro out hout
    simp only [stream_write, hreq, if_neg hd] at hout
    cases hl : stream_write_loop stream.pdata.fd (2 * (N : Int)) env 0 [] with
    | none => rw [hl] at hout; simp at hout
    | some l =>
      rw [hl] at hout
      obtain ⟨consumed, h1, _, h3, h4⟩ := stream_write_loop_sound _ _ _ _ _ _ hl
      have hN := sample_count_as_int N h2N
      by_cases hoff : l.offset = 2 * (N : Int)
      · simp only [if_pos hoff, Option.some.injEq] at hout
        subst hout
        dsimp only
        have hacc : accepted consumed = 2 * N := by omega
        refine ⟨consumed, h1, ?_, ?_, ?_, ?_⟩
        · rw [hN]; exact ⟨fun _ => hacc, fun _ => rfl⟩
        · intro h; exact absurd hacc h
        · intro h; omega
        · rw [hN]; omega
      · simp only [if_neg hoff, Option.some.injEq] at hout
        subst hout
        dsimp only
        have hacc : accepted consumed ≠ 2 * N := by omega
        refine ⟨consumed, h1, ?_, ?_, ?_, ?_⟩
        · constructor
          · intro h; omega
          · intro h; exact absurd h hacc
        · intro _; rfl
        · intro h; exact h4 (by omega)
        · omega
  · intro h
    obtain ⟨l, hl⟩ := stream_write_loop_total stream.pdata.fd (2 * (N : Int)) env 0 []
      (by
        rcases h with h | ⟨h1, h2⟩
        · exact Or.inl h
        · exact Or.inr ⟨h1, by omega⟩)
    simp only [stream_write, hreq, if_neg hd, hl]
    by_cases hoff : l.offset = 2 * (N : Int)
    · rw [if_pos hoff]; exact ⟨_, rfl⟩
    · rw [if_neg hoff]; exact ⟨_, rfl⟩

/-- C4, at a concrete input: three samples, two bytes accepted, an `EINTR`
failure, then a `write` that returns 0. -/
theorem stream_write_atomicity_witness :
    (∀ out, stream_write (-1) (tcp_stream STREAM_OUTPUT 5) 3
        [WriteResult.accepted 2, WriteResult.fail EINTR, WriteResult.accepted 0] = some out →
      ∃ consumed,
        [WriteResult.accepted 2, WriteResult.fail EINTR, WriteResult.accepted 0]
          = consumed ++ out.rest ∧
        (out.ret = ((3 : Nat) : Int) ↔ accepted consumed = 2 * 3) ∧
        (accepted consumed ≠ 2 * 3 → out.ret = -1) ∧
        (accepted consumed < 2 * 3 → ∃ s ∈ consumed, s.isStop) ∧
        ¬ (0 < out.ret ∧ out.ret < ((3 : Nat) : Int))) ∧
    (((∃ s ∈ [WriteResult.accepted 2, WriteResult.fail EINTR, WriteResult.accepted 0],
          s.isStop) ∨
        ([WriteResult.accepted 2, WriteResult.fail EINTR, WriteResult.accepted 0] ≠ [] ∧
          2 * 3 ≤ accepted
            [WriteResult.accepted 2, WriteResult.fail EINTR, WriteResult.accepted 0])) →
      ∃ out, stream_write (-1) (tcp_stream STREAM_OUTPUT 5) 3
        [WriteResult.accepted 2, WriteResult.fail EINTR, WriteResult.accepted 0] = some out) :=
  stream_write_atomicity (-1) (tcp_stream STREAM_OUTPUT 5) 3
    [WriteResult.accepted 2, WriteResult.fail EINTR, WriteResult.accepted 0]
    rfl (by decide) (by decide)

/-! ## Properties of `stream_open` -/

theorem splitOnP_colon (s : List Char) :
    s.splitOnP (· == ':') =
      s.takeWhile (fun c => !decide (c ∈ [':'])) ::
        (match s.dropWhile (fun c => !decide (c ∈ [':'])) with
         | [] => []
         | _ :: r => r.splitOnP (· == ':')) := by
  induction s with
  | nil => simp
  | cons c t ih =>
    rw [List.splitOnP_cons]
    by_cases hc : c = ':'
    · subst hc
      simp
    · have h1 : (c == ':') = false := by simpa using hc
      have h2 : (!decide (c ∈ [':'])) = true := by simpa using hc
      rw [h1, List.takeWhile_cons, List.dropWhile_cons, h2, ih]
      simp

theorem strtok_spec_fields (s : List Char) :
    (strtok s [':']).1 = (spec_fields s).head? ∧
      spec_fields (strtok s [':']).2 = (spec_fields s).tail := by
  induction s with
  | nil => simp [strtok, spec_fields, List.splitOn]
  | cons c t ih =>
    by_cases hc : c = ':'
    · subst hc
      have h1 : strtok (':' :: t) [':'] = strtok t [':'] := by
        simp [strtok, List.dropWhile_cons]
      have h2 : spec_fields (':' :: t) = spec_fields t := by
        simp [spec_fields, List.splitOn, List.splitOnP_cons]
      rw [h1, h2]; exact ih
    · have hd : (decide (c ∈ [':'])) = false := by simpa using hc
      have hs : strtok (c :: t) [':'] =
          (some (c :: t.takeWhile (fun c => !decide (c ∈ [':']))),
            (t.dropWhile (fun c => !decide (c ∈ [':']))).tail) := by
        simp only [strtok, List.dropWhile_cons, hd, List.takeWhile_cons]
        simp [List.takeWhile_cons, List.dropWhile_cons, hc]
      have hf : spec_fields (c :: t) =
          (c :: t.takeWhile (fun c => !decide (c ∈ [':']))) ::
            spec_fields (t.dropWhile (fun c => !decide (c ∈ [':']))).tail := by
        have h1 : (c == ':') = false := by simpa using hc
        simp only [spec_fields, List.splitOn]
        rw [List.splitOnP_cons, h1, splitOnP_colon t]
        simp only [Bool.false_eq_true, if_false, List.modifyHead_cons]
        rw [List.filter_cons_of_pos (by simp)]
        congr 1
        cases hdw : t.dropWhile (fun c => !decide (c ∈ [':'])) with
        | nil => simp [List.splitOnP_nil]
        | cons d r => simp
      rw [hs, hf]
      exact ⟨rfl, rfl⟩

/-- C6. `stream_open` rejects malformed address specifications before any
socket action: when the argument string is absent, or has fewer than three
non-empty `:`-separated tokens, or its first token is neither `connect` nor
`listen`, `stream_open` returns `SDM_ERROR_STREAM`, records `EINVAL` as the
last error together with a context, and makes no call to the operating system
(empty call log, no result consumed); descriptor and direction are as before. -/
theorem stream_open_rejects_malformed (libc : Libc) (SDM_ERROR_NONE SDM_ERROR_STREAM : Int)
    (stream : sdm_stream_t) (env : List SysResult)
    (hbad : malformed_args stream.args) :
    ∃ out, stream_open libc SDM_ERROR_NONE SDM_ERROR_STREAM stream env = some out ∧
      out.ret = SDM_ERROR_STREAM ∧ out.stream.pdata.error = EINVAL ∧
      out.stream.pdata.error_op ≠ none ∧ out.calls = [] ∧ out.rest = env ∧
      out.stream.pdata.fd = stream.pdata.fd ∧ out.stream.direction = stream.direction := by
  cases hargs : stream.args with
  | none =>
    simp only [stream_open, hargs]
    exact ⟨_, rfl, rfl, rfl, by simp, rfl, rfl, rfl, rfl⟩
  | some a =>
    rw [hargs] at hbad
    simp only [malformed_args] at hbad
    obtain ⟨h1a, h1b⟩ := strtok_spec_fields a
    obtain ⟨h2a, h2b⟩ := strtok_spec_fields (strtok a [':']).2
    obtain ⟨h3a, _⟩ := strtok_spec_fields (strtok (strtok a [':']).2 [':']).2
    rw [h1b] at h2a h2b
    rw [h2b] at h3a
    rcases e1 : strtok a [':'] with ⟨tok1, s1⟩
    rw [e1] at h1a h2a h3a
    rcases e2 : strtok s1 [':'] with ⟨tok2, s2⟩
    rw [e2] at h2a h3a
    rcases e3 : strtok s2 [':'] with ⟨tok3, s3⟩
    rw [e3] at h3a
    simp only at h1a h2a h3a
    simp only [stream_open, hargs, e1, e2, e3]
    cases tok1 with
    | none => exact ⟨_, rfl, rfl, rfl, by simp, rfl, rfl, rfl, rfl⟩
    | some m =>
      cases tok2 with
      | none => exact ⟨_, rfl, rfl, rfl, by simp, rfl, rfl, rfl, rfl⟩
      | some ip =>
        cases tok3 with
        | none => exact ⟨_, rfl, rfl, rfl, by simp, rfl, rfl, rfl, rfl⟩
        | some port =>
          have hlen : ¬ ((spec_fields a).length < 3) := by
            cases hf : spec_fields a with
            | nil => rw [hf] at h1a; simp at h1a
            | cons x xs =>
              cases xs with
              | nil => rw [hf] at h2a; simp at h2a
              | cons y ys =>
                cases ys with
                | nil => rw [hf] at h3a; simp at h3a
                | cons z zs => simp
          have hmode := hbad.resolve_left hlen
          rw [← h1a] at hmode
          have hc : ¬ (m = "connect".toList) := fun h => hmode.1 (by rw [h])
          have hl : ¬ (m = "listen".toList) := fun h => hmode.2 (by rw [h])
          simp only [if_neg hc, if_neg hl]
          exact ⟨_, rfl, rfl, rfl, by simp, rfl, rfl, rfl, rfl⟩

/-- C6, at a concrete input: the port is missing from `connect:10.0.0.5`. -/
theorem stream_open_rejects_malformed_witness :
    ∃ out, stream_open simple_libc 0 (-1)
        { tcp_stream STREAM_INPUT 0 with args := some "connect:10.0.0.5".toList }
        [⟨3, 0⟩, ⟨0, 0⟩] = some out ∧
      out.ret = -1 ∧ out.stream.pdata.error = EINVAL ∧
      out.stream.pdata.error_op ≠ none ∧ out.calls = [] ∧ out.rest = [⟨3, 0⟩, ⟨0, 0⟩] ∧
      out.stream.pdata.fd
        = ({ tcp_stream STREAM_INPUT 0 with
              args := some "connect:10.0.0.5".toList } : sdm_stream_t).pdata.fd ∧
      out.stream.direction
        = ({ tcp_stream STREAM_INPUT 0 with
              args := some "connect:10.0.0.5".toList } : sdm_stream_t).direction :=
  stream_open_rejects_malformed simple_libc 0 (-1)
    { tcp_stream STREAM_INPUT 0 with args := some "connect:10.0.0.5".toList }
    [⟨3, 0⟩, ⟨0, 0⟩] (by decide)

theorem stream_open_connect_failure_records (SDM_ERROR_NONE SDM_ERROR_STREAM : Int)
    (stream : sdm_stream_t) (env : List SysResult) (out : OpenOutcome)
    (hne : SDM_ERROR_STREAM ≠ SDM_ERROR_NONE)
    (h : stream_open_connect SDM_ERROR_NONE SDM_ERROR_STREAM stream env = some out)
    (hret : out.ret = SDM_ERROR_STREAM) :
    out.stream.pdata.error_op ≠ none := by
  unfold stream_open_connect at h
  split at h
  · simp at h
  · simp only at h
    split at h
    · rw [Option.some.injEq] at h; subst h; simp
    · split at h
      · simp at h
      · split at h
        · rw [Option.some.injEq] at h; subst h; simp
        · rw [Option.some.injEq] at h; subst h
          exact absurd hret.symm hne

theorem stream_listen_error_records (SDM_ERROR_STREAM : Int) (stream : sdm_stream_t)
    (fd : Int) (calls : List SysCall) (env : List SysResult) :
    (stream_listen_error SDM_ERROR_STREAM stream fd calls env).stream = stream := by
  unfold stream_listen_error
  split <;> rfl

theorem stream_open_listen_failure_records (SDM_ERROR_NONE SDM_ERROR_STREAM : Int)
    (stream : sdm_stream_t) (env : List SysResult) (out : OpenOutcome)
    (hne : SDM_ERROR_STREAM ≠ SDM_ERROR_NONE)
    (h : stream_open_listen SDM_ERROR_NONE SDM_ERROR_STREAM stream env = some out)
    (hret : out.ret = SDM_ERROR_STREAM) :
    out.stream.pdata.error_op ≠ none := by
  unfold stream_open_listen at h
  simp only at h
  split at h
  · simp at h
  · split at h
    · rw [Option.some.injEq] at h; subst h; rw [stream_listen_error_records]; simp
    · split at h
      · simp at h
      · split at h
        · rw [Option.some.injEq] at h; subst h; rw [stream_listen_error_records]; simp
        · split at h
          · simp at h
          · split at h
            · rw [Option.some.injEq] at h; subst h; rw [stream_listen_error_records]; simp
            · split at h
              · simp at h
              · split at h
                · rw [Option.some.injEq] at h; subst h; rw [stream_listen_error_records]; simp
                · split at h
                  · simp at h
                  · split at h
                    · rw [Option.some.injEq] at h; subst h
                      rw [stream_listen_error_records]; simp
                    · rw [Option.some.injEq] at h; subst h
                      exact absurd hret.symm hne

/-- Every failing `stream_open` records a context: when the value returned is
`SDM_ERROR_STREAM` (and that differs from `SDM_ERROR_NONE`), `error_op` is
set. -/
theorem stream_open_failure_records (libc : Libc) (SDM_ERROR_NONE SDM_ERROR_STREAM : Int)
    (stream : sdm_stream_t) (env : List SysResult) (out : OpenOutcome)
    (hne : SDM_ERROR_STREAM ≠ SDM_ERROR_NONE)
    (h : stream_open libc SDM_ERROR_NONE SDM_ERROR_STREAM stream env = some out)
    (hret : out.ret = SDM_ERROR_STREAM) :
    out.stream.pdata.error_op ≠ none := by
  unfold stream_open at h
  simp only at h
  split at h
  · rw [Option.some.injEq] at h; subst h; simp
  · split at h
    · split at h
      · exact stream_open_connect_failure_records _ _ _ _ _ hne h hret
      · split at h
        · exact stream_open_listen_failure_records _ _ _ _ _ hne h hret
        · rw [Option.some.injEq] at h; subst h; simp
    · rw [Option.some.injEq] at h; subst h; simp

/-! ## Error recording and `stream_close` -/

/-- `stream_read` hands back the stream record it was given, whatever it
returns. -/
theorem stream_read_keeps_stream (SDM_ERROR_STREAM : Int) (stream : sdm_stream_t) (samples : Mem)
    (sample_count : Nat) (env : List ReadResult) (out : ReadOutcome)
    (h : stream_read SDM_ERROR_STREAM stream samples sample_count env = some out) :
    out.stream = stream := by
  simp only [stream_read] at h
  split at h
  · rw [Option.some.injEq] at h; rw [← h]
  · split at h
    · simp at h
    · split at h
      · rw [Option.some.injEq] at h; rw [← h]
      · split at h <;> (rw [Option.some.injEq] at h; rw [← h])

/-- The error accessors hand back the stream record they were given. -/
theorem error_accessors_keep_stream (libc : Libc) (stream : sdm_stream_t) :
    (stream_get_error libc stream).2 = stream ∧ (stream_get_error_op stream).2 = stream :=
  ⟨rfl, rfl⟩

/-- `stream_write` hands back the stream record it was given, whatever it
returns. -/
theorem stream_write_keeps_stream (SDM_ERROR_STREAM : Int) (stream : sdm_stream_t)
    (sample_count : Nat) (env : List WriteResult) (out : WriteOutcome)
    (h : stream_write SDM_ERROR_STREAM stream sample_count env = some out) :
    out.stream = stream := by
  simp only [stream_write] at h
  split at h
  · rw [Option.some.injEq] at h; rw [← h]
  · split at h
    · simp at h
    · split at h <;> (rw [Option.some.injEq] at h; rw [← h])

/-- C7, the code at a failing input: a stream is constructed, opened with
success (`socket` gives 3, `connect` gives 0), and the first `read` of
`stream_read` fails with `ECONNRESET`.  `stream_read` returns
`SDM_ERROR_STREAM`, yet the recorded error code is still 0 and the recorded
context is still absent, so the accessors describe no failing operation. -/
theorem read_failure_leaves_error_unset :
    (stream_open simple_libc 0 (-1) (fresh_stream STREAM_INPUT) [⟨3, 0⟩, ⟨0, 0⟩]).map
        (fun o => (o.ret, o.stream.pdata.fd, o.stream.pdata.error, o.stream.pdata.error_op))
      = some (0, 3, 0, none) ∧
    ((stream_open simple_libc 0 (-1) (fresh_stream STREAM_INPUT) [⟨3, 0⟩, ⟨0, 0⟩]).bind
        (fun o => stream_read (-1) o.stream zero_mem 4 [ReadResult.fail ECONNRESET])).map
        (fun r => (r.ret, r.calls, r.stream.pdata.error, (stream_get_error_op r.stream).1))
      = some (-1, [SysCall.read 3 0 8], 0, none) ∧
    ((stream_write (-1) (fresh_stream STREAM_INPUT) 4 []).map
        (fun w => (w.ret, w.stream.pdata.error, (stream_get_error_op w.stream).1)))
      = some (-1, 0, none) := by
  decide

/-- C8, the code at failing inputs.  A stream that was only constructed:
`stream_close` calls `close(0)`.  A stream whose `connect` failed (`socket`
gave 3): `stream_open` has closed 3 and `stream_close` closes 3 again.  Any
stream: the second `stream_close` makes the same calls as the first.  The
value returned is `SDM_ERROR_NONE` each time. -/
theorem stream_close_releases_again :
    (∀ stream : sdm_stream_t,
      stream_close 0 (sdm_stream_tcp_new 0 stream).2
        = (0, (sdm_stream_tcp_new 0 stream).2, [SysCall.close 0])) ∧
    ((stream_open simple_libc 0 (-1) (fresh_stream STREAM_INPUT)
        [⟨3, 0⟩, ⟨-1, ECONNREFUSED⟩]).map
        (fun o => (o.ret, o.calls.getLast?, (stream_close 0 o.stream).2.2))
      = some (-1, some (SysCall.close 3), [SysCall.close 3])) ∧
    (∀ (SDM_ERROR_NONE : Int) (stream : sdm_stream_t),
      (stream_close SDM_ERROR_NONE stream).1 = SDM_ERROR_NONE ∧
      (stream_close SDM_ERROR_NONE (stream_close SDM_ERROR_NONE stream).2.1).2.2
        = (stream_close SDM_ERROR_NONE stream).2.2 ∧
      (0 ≤ stream.pdata.fd →
        (stream_close SDM_ERROR_NONE (stream_close SDM_ERROR_NONE stream).2.1).2.2
          = [SysCall.close stream.pdata.fd])) := by
  refine ⟨?_, by decide, ?_⟩
  · intro stream
    simp [stream_close, sdm_stream_tcp_new]
  · intro e stream
    by_cases h : stream.pdata.fd ≥ 0
    · simp [stream_close, h]
    · simp [stream_close, h]

/-! ## Properties of the main loop -/

/-- C9 as stated fails: interactive invocation, session in `WAIT_REPLY`,
transport on descriptor 3, input source on descriptor 0.  The loop reaches
`select` and descriptor 0 is in the set it waits on. -/
theorem readiness_interactive_wait_reply :
    readiness_set ⟨3, SDM_STATE_WAIT_REPLY, 0⟩ ⟨true, some 0⟩ = Readiness.wait [3, 0] 3 1 0 ∧
    (0 : Int) ∈ [(3 : Int), 0] ∧
    ¬ (((⟨true, some 0⟩ : shell_config_t).interactive = true ∧
          (⟨true, some 0⟩ : shell_config_t).input ≠ none ∧
          (⟨3, SDM_STATE_WAIT_REPLY, 0⟩ : sdm_session_t).state = SDM_STATE_IDLE) ∨
        ((⟨true, some 0⟩ : shell_config_t).interactive = false ∧
          (⟨3, SDM_STATE_WAIT_REPLY, 0⟩ : sdm_session_t).state ≠ SDM_STATE_WAIT_REPLY ∧
          (⟨3, SDM_STATE_WAIT_REPLY, 0⟩ : sdm_session_t).state ≠ SDM_STATE_RX)) := by
  decide

/-- C9, amended. In every iteration that reaches the readiness wait the
transport descriptor is in the waited set, nothing but the transport and the
input descriptor is, and the input descriptor (when it is not the transport
descriptor itself) is in the waited set exactly when the session state is not
`INIT` and either the invocation is interactive or the state is neither
`WAIT_REPLY` nor `RX`; so in interactive mode it is waited on in `WAIT_REPLY`
and `RX` too, and in `INIT` it is never waited on. -/
theorem readiness_set_spec (ss : sdm_session_t) (cfg : shell_config_t) (rfds : List Int)
    (maxfd tv_sec tv_usec : Int)
    (h : readiness_set ss cfg = Readiness.wait rfds maxfd tv_sec tv_usec) :
    ss.sockfd ∈ rfds ∧
    (∀ fd ∈ rfds, fd = ss.sockfd ∨ cfg.input = some fd) ∧
    (∀ fd, cfg.input = some fd → fd ≠ ss.sockfd →
      (fd ∈ rfds ↔ ss.state ≠ SDM_STATE_INIT ∧
        (cfg.interactive = true ∨
          (ss.state ≠ SDM_STATE_WAIT_REPLY ∧ ss.state ≠ SDM_STATE_RX)))) ∧
    (ss.state = SDM_STATE_INIT → rfds = [ss.sockfd]) ∧
    (cfg.interactive = true → ss.state ≠ SDM_STATE_INIT →
      ∃ fd, cfg.input = some fd ∧ fd ∈ rfds) := by
  unfold readiness_set at h
  simp only at h
  by_cases h1 : ss.state = SDM_STATE_INIT
  · rw [if_pos h1] at h
    injection h with hr _ _ _
    subst hr
    refine ⟨by simp, by simp, ?_, fun _ => rfl, fun _ hn => absurd h1 hn⟩
    intro fd _ hne
    simp [h1, hne]
  · rw [if_neg h1] at h
    by_cases h2 : (!cfg.interactive) = true ∧
        (ss.state = SDM_STATE_WAIT_REPLY ∨ ss.state = SDM_STATE_RX)
    · rw [if_pos h2] at h
      injection h with hr _ _ _
      subst hr
      have hi : cfg.interactive = false := by simpa using h2.1
      refine ⟨by simp, by simp, ?_, fun hh => absurd hh h1, fun hh => by rw [hi] at hh; simp at hh⟩
      intro fd _ hne
      constructor
      · intro hmem; exact absurd (List.mem_singleton.mp hmem) hne
      · rintro ⟨_, hi2 | ⟨ha, hb⟩⟩
        · rw [hi] at hi2; exact absurd hi2 (by decide)
        · rcases h2.2 with h | h
          · exact absurd h ha
          · exact absurd h hb
    · rw [if_neg h2] at h
      by_cases h3 : (!cfg.interactive) = true ∧ cfg.input = none
      · rw [if_pos h3] at h; simp at h
      · rw [if_neg h3] at h
        cases hin : cfg.input with
        | none => rw [hin] at h; simp at h
        | some fd0 =>
          rw [hin] at h
          injection h with hr _ _ _
          subst hr
          refine ⟨by simp, ?_, ?_, fun hh => absurd hh h1, fun _ _ => ⟨fd0, rfl, by simp⟩⟩
          · intro fd hfd
            simp only [List.cons_append, List.nil_append, List.mem_cons, List.mem_singleton,
              List.not_mem_nil, or_false] at hfd
            rcases hfd with h | h
            · exact Or.inl h
            · exact Or.inr (by rw [h])
          · intro fd hfd hne
            have : fd0 = fd := by simpa using hfd
            subst this
            simp only [List.cons_append, List.nil_append, List.mem_cons, List.mem_singleton,
              List.not_mem_nil, or_false, or_true, true_iff]
            refine ⟨h1, ?_⟩
            by_cases hi : cfg.interactive = true
            · exact Or.inl hi
            · right
              have hi2 : (!cfg.interactive) = true := by simpa using hi
              constructor
              · intro hh; exact h2 ⟨hi2, Or.inl hh⟩
              · intro hh; exact h2 ⟨hi2, Or.inr hh⟩

/-- C9 amended, at a concrete input: interactive invocation, session in `RX`. -/
theorem readiness_set_spec_witness :
    (3 : Int) ∈ [(3 : Int), 0] ∧
    (∀ fd ∈ [(3 : Int), 0], fd = (⟨3, SDM_STATE_RX, 0⟩ : sdm_session_t).sockfd ∨
      (⟨true, some 0⟩ : shell_config_t).input = some fd) ∧
    (∀ fd, (⟨true, some 0⟩ : shell_config_t).input = some fd →
      fd ≠ (⟨3, SDM_STATE_RX, 0⟩ : sdm_session_t).sockfd →
      (fd ∈ [(3 : Int), 0] ↔
        (⟨3, SDM_STATE_RX, 0⟩ : sdm_session_t).state ≠ SDM_STATE_INIT ∧
        ((⟨true, some 0⟩ : shell_config_t).interactive = true ∨
          ((⟨3, SDM_STATE_RX, 0⟩ : sdm_session_t).state ≠ SDM_STATE_WAIT_REPLY ∧
            (⟨3, SDM_STATE_RX, 0⟩ : sdm_session_t).state ≠ SDM_STATE_RX)))) ∧
    ((⟨3, SDM_STATE_RX, 0⟩ : sdm_session_t).state = SDM_STATE_INIT →
      [(3 : Int), 0] = [(⟨3, SDM_STATE_RX, 0⟩ : sdm_session_t).sockfd]) ∧
    ((⟨true, some 0⟩ : shell_config_t).interactive = true →
      (⟨3, SDM_STATE_RX, 0⟩ : sdm_session_t).state ≠ SDM_STATE_INIT →
      ∃ fd, (⟨true, some 0⟩ : shell_config_t).input = some fd ∧ fd ∈ [(3 : Int), 0]) :=
  readiness_set_spec ⟨3, SDM_STATE_RX, 0⟩ ⟨true, some 0⟩ [3, 0] 3 1 0 (by decide)

theorem handle_rx_loop_log :
    ∀ (rx : List RxStep) (len : Int) (log : List Event) (rc : Int) (ss : sdm_session_t)
      (log2 : List Event),
      handle_rx_loop rx len log = some (rc, ss, log2) →
      rc ≤ 0 ∧ ∃ added, log2 = log ++ added ∧ Event.input_read ∉ added := by
  intro rx
  induction rx with
  | nil => intro _ _ _ _ _ h; simp [handle_rx_loop] at h
  | cons s t ih =>
    intro len log rc ss log2 h
    simp only [handle_rx_loop] at h
    by_cases hpos : s.rc > 0
    · rw [if_pos hpos] at h
      obtain ⟨h1, added, h2, h3⟩ := ih _ _ _ _ _ h
      refine ⟨h1, ?_⟩
      by_cases hf : len ≠ 0 ∧ (s.session.rx_data_len = 0 ∨ s.rc = 0)
      · rw [if_pos hf] at h2
        refine ⟨[Event.handle_rx_data len, Event.forced_update_display] ++ added, ?_, ?_⟩
        · rw [h2]; simp
        · simp [h3]
      · rw [if_neg hf] at h2
        refine ⟨[Event.handle_rx_data len] ++ added, ?_, ?_⟩
        · rw [h2]; simp
        · simp [h3]
    · rw [if_neg hpos, Option.some.injEq, Prod.mk.injEq, Prod.mk.injEq] at h
      obtain ⟨h1, _, h3⟩ := h
      refine ⟨by omega, ?_⟩
      by_cases hf : len ≠ 0 ∧ (s.session.rx_data_len = 0 ∨ s.rc = 0)
      · rw [if_pos hf] at h3
        exact ⟨[Event.handle_rx_data len, Event.forced_update_display], by rw [← h3]; simp,
          by simp⟩
      · rw [if_neg hf] at h3
        exact ⟨[Event.handle_rx_data len], by rw [← h3], by simp⟩

theorem exit_status_of_neg (rc : Int) (hrc : rc < 0) (hint : -2147483648 ≤ rc) :
    exit_status rc ≠ 0 ∧ (-2147483648 < rc → exit_status rc = -rc) := by
  unfold exit_status toInt32
  simp only [if_pos hrc]
  constructor
  · split <;> omega
  · intro h
    split <;> omega

theorem process_exit_status_of_neg (rc : Int) (hrc : rc < 0) :
    process_exit_status (exit_status rc) = (-rc) % 256 ∧
      (process_exit_status (exit_status rc) ≠ 0 ↔ rc % 256 ≠ 0) := by
  unfold process_exit_status exit_status toInt32
  simp only [if_pos hrc]
  constructor
  · split <;> omega
  · split <;> omega

theorem transport_block_on_error (flags : Nat) (st1 : LoopState) (e : IterEnv) (rc : Int)
    (session : sdm_session_t) (log2 : List Event)
    (hready : st1.session.sockfd ∈ e.ready) (hlen : e.read_len > 0)
    (hrx : handle_rx_loop e.rx e.read_len [Event.sock_read] = some (rc, session, log2))
    (hrc : rc < 0) :
    transport_block flags st1 e =
      (if st1.cfg.interactive = false ∧ flags &&& FLAG_IGNORE_ERRORS = 0 then
        Flow.break ⟨rc, session, st1.cfg⟩
      else Flow.continue ⟨rc, session, st1.cfg⟩, log2) := by
  have h0 : ¬ (e.read_len = 0) := by omega
  have h1 : ¬ (e.read_len < 0) := by omega
  simp only [transport_block, if_pos hready, if_neg h0, if_neg h1, hrx]
  by_cases hstop : st1.cfg.interactive = false ∧ flags &&& FLAG_IGNORE_ERRORS = 0
  · rw [if_pos hstop, if_pos]
    refine ⟨hrc, ?_, ?_⟩
    · simp [hstop.1]
    · simp [hstop.2]
  · rw [if_neg hstop, if_neg]
    rintro ⟨_, ha, hb⟩
    apply hstop
    refine ⟨by simpa using ha, ?_⟩
    simpa using hb

/-- C10 as stated fails: a script is running (non-interactive, no `-x`), the
transport is ready and delivers 5 bytes, and the one `sdm_handle_rx_data` call
on them returns `rc = -256`.  The loop is left and `main` returns 256, so the
exit status of the process is 0: neither `-rc` nor non-zero.  For
`rc = INT_MIN` the value `main` returns is not `-rc` either, and the exit
status is 0 again. -/
theorem protocol_error_exit_status_zero :
    before_transport (-1) ⟨0, ⟨3, SDM_STATE_WAIT_REPLY, 0⟩, ⟨false, some 7⟩⟩
        script_error_256_iteration
      = (Flow.next ⟨1, ⟨3, SDM_STATE_WAIT_REPLY, 0⟩, ⟨false, some 7⟩⟩,
          [Event.update_promt_state, Event.select [3] 3 1 0]) ∧
    (3 : Int) ∈ script_error_256_iteration.ready ∧
    script_error_256_iteration.read_len > 0 ∧
    handle_rx_loop script_error_256_iteration.rx script_error_256_iteration.read_len
        [Event.sock_read]
      = some (-256, ⟨3, SDM_STATE_IDLE, 0⟩,
          [Event.sock_read, Event.handle_rx_data 5, Event.forced_update_display]) ∧
    (0 : Nat) &&& FLAG_IGNORE_ERRORS = 0 ∧
    (main_loop (-1) 0 [script_error_256_iteration]
        ⟨0, ⟨3, SDM_STATE_WAIT_REPLY, 0⟩, ⟨false, some 7⟩⟩ []).map
        (fun r => (r.1, process_exit_status r.1)) = some (256, 0) ∧
    process_exit_status (exit_status (-256)) ≠ -(-256) ∧
    ¬ (process_exit_status (exit_status (-256)) ≠ 0) ∧
    exit_status (-2147483648) ≠ -(-2147483648) ∧
    process_exit_status (exit_status (-2147483648)) = 0 := by
  decide

/-- C10, amended. Protocol-error policy: in an iteration where control reaches
the transport block, the transport is ready, `read` returns a positive length
and the last `sdm_handle_rx_data` call on the chunk returns `rc < 0`, the loop
is left in that iteration exactly when the invocation is non-interactive and
`FLAG_IGNORE_ERRORS` is not set in `flags`.  When it is left, what remains of
the outside world is not consulted: after the chunk is handled only
`shell_deinit` and `sdm_close` happen, no input is read, and `main` returns a
non-zero `int`, equal to `-rc` unless `rc = INT_MIN` (where the negation
wraps).  The exit status of the process is the low eight bits of `-rc`; it is
non-zero exactly when `rc` is not a multiple of 256.  Otherwise the loop goes
on with the next iteration. -/
theorem protocol_error_policy (SHELL_EOF : Int) (flags : Nat) (st st1 : LoopState)
    (e : IterEnv) (envs : List IterEnv) (log0 log1 log2 : List Event) (rc : Int)
    (session : sdm_session_t)
    (hbefore : before_transport SHELL_EOF st e = (Flow.next st1, log1))
    (hready : st1.session.sockfd ∈ e.ready) (hlen : e.read_len > 0)
    (hrx : handle_rx_loop e.rx e.read_len [Event.sock_read] = some (rc, session, log2))
    (hrc : rc < 0) (hint : -2147483648 ≤ rc) :
    ((∃ st2, (iteration SHELL_EOF flags st e).1 = Flow.break st2) ↔
      (st1.cfg.interactive = false ∧ flags &&& FLAG_IGNORE_ERRORS = 0)) ∧
    (st1.cfg.interactive = false ∧ flags &&& FLAG_IGNORE_ERRORS = 0 →
      main_loop SHELL_EOF flags (e :: envs) st log0
        = some (exit_status rc,
            log0 ++ (log1 ++ log2) ++ [Event.shell_deinit, Event.sdm_close]) ∧
      (∃ added, log2 = Event.sock_read :: added ∧ Event.input_read ∉ added) ∧
      exit_status rc ≠ 0 ∧ (-2147483648 < rc → exit_status rc = -rc) ∧
      process_exit_status (exit_status rc) = (-rc) % 256 ∧
      (process_exit_status (exit_status rc) ≠ 0 ↔ rc % 256 ≠ 0)) ∧
    (st1.cfg.interactive = true ∨ flags &&& FLAG_IGNORE_ERRORS ≠ 0 →
      (iteration SHELL_EOF flags st e).1 = Flow.continue ⟨rc, session, st1.cfg⟩ ∧
      main_loop SHELL_EOF flags (e :: envs) st log0
        = main_loop SHELL_EOF flags envs ⟨rc, session, st1.cfg⟩ (log0 ++ (log1 ++ log2))) := by
  have htb := transport_block_on_error flags st1 e rc session log2 hready hlen hrx hrc
  have hit : iteration SHELL_EOF flags st e =
      (if st1.cfg.interactive = false ∧ flags &&& FLAG_IGNORE_ERRORS = 0 then
        Flow.break ⟨rc, session, st1.cfg⟩
      else Flow.continue ⟨rc, session, st1.cfg⟩, log1 ++ log2) := by
    simp only [iteration, hbefore, htb]
  refine ⟨?_, ?_, ?_⟩
  · rw [hit]
    by_cases hstop : st1.cfg.interactive = false ∧ flags &&& FLAG_IGNORE_ERRORS = 0
    · rw [if_pos hstop]
      exact ⟨fun _ => hstop, fun _ => ⟨_, rfl⟩⟩
    · rw [if_neg hstop]
      constructor
      · rintro ⟨st2, h⟩
        have h2 : Flow.continue ⟨rc, session, st1.cfg⟩ = Flow.break st2 := h
        cases h2
      · intro h; exact absurd h hstop
  · intro hstop
    obtain ⟨_, added, h2, h3⟩ := handle_rx_loop_log _ _ _ _ _ _ hrx
    have hexit := exit_status_of_neg rc hrc hint
    have hproc := process_exit_status_of_neg rc hrc
    refine ⟨?_, ⟨added, by rw [h2]; rfl, h3⟩, hexit.1, hexit.2, hproc.1, hproc.2⟩
    simp only [main_loop, hit, if_pos hstop]
  · intro hgo
    have hstop : ¬ (st1.cfg.interactive = false ∧ flags &&& FLAG_IGNORE_ERRORS = 0) := by
      rintro ⟨ha, hb⟩
      rcases hgo with h | h
      · rw [ha] at h; exact absurd h (by decide)
      · exact h hb
    refine ⟨by rw [hit, if_neg hstop], ?_⟩
    simp only [main_loop, hit, if_neg hstop]

/-- C10 amended, at a concrete input: a script is running (non-interactive, no
`-x`), the session waits for a reply, the transport delivers 5 bytes and the
second `sdm_handle_rx_data` call on them returns -3. -/
theorem protocol_error_policy_witness :
    ((∃ st2, (iteration (-1) 0 ⟨0, ⟨3, SDM_STATE_WAIT_REPLY, 0⟩, ⟨false, some 7⟩⟩
        script_error_iteration).1 = Flow.break st2) ↔
      ((⟨1, ⟨3, SDM_STATE_WAIT_REPLY, 0⟩, ⟨false, some 7⟩⟩ : LoopState).cfg.interactive = false ∧
        0 &&& FLAG_IGNORE_ERRORS = 0)) ∧
    ((⟨1, ⟨3, SDM_STATE_WAIT_REPLY, 0⟩, ⟨false, some 7⟩⟩ : LoopState).cfg.interactive = false ∧
        0 &&& FLAG_IGNORE_ERRORS = 0 →
      main_loop (-1) 0 (script_error_iteration :: [next_command_iteration])
          ⟨0, ⟨3, SDM_STATE_WAIT_REPLY, 0⟩, ⟨false, some 7⟩⟩ []
        = some (exit_status (-3),
            [] ++ ([Event.update_promt_state, Event.select [3] 3 1 0] ++
              [Event.sock_read, Event.handle_rx_data 5, Event.forced_update_display,
                Event.handle_rx_data 0]) ++ [Event.shell_deinit, Event.sdm_close]) ∧
      (∃ added, [Event.sock_read, Event.handle_rx_data 5, Event.forced_update_display,
          Event.handle_rx_data 0] = Event.sock_read :: added ∧ Event.input_read ∉ added) ∧
      exit_status (-3) ≠ 0 ∧ (-2147483648 < (-3 : Int) → exit_status (-3) = -(-3)) ∧
      process_exit_status (exit_status (-3)) = (-(-3 : Int)) % 256 ∧
      (process_exit_status (exit_status (-3)) ≠ 0 ↔ (-3 : Int) % 256 ≠ 0)) ∧
    ((⟨1, ⟨3, SDM_STATE_WAIT_REPLY, 0⟩, ⟨false, some 7⟩⟩ : LoopState).cfg.interactive = true ∨
        0 &&& FLAG_IGNORE_ERRORS ≠ 0 →
      (iteration (-1) 0 ⟨0, ⟨3, SDM_STATE_WAIT_REPLY, 0⟩, ⟨false, some 7⟩⟩
        script_error_iteration).1
          = Flow.continue ⟨-3, ⟨3, SDM_STATE_IDLE, 0⟩,
              (⟨1, ⟨3, SDM_STATE_WAIT_REPLY, 0⟩, ⟨false, some 7⟩⟩ : LoopState).cfg⟩ ∧
      main_loop (-1) 0 (script_error_iteration :: [next_command_iteration])
          ⟨0, ⟨3, SDM_STATE_WAIT_REPLY, 0⟩, ⟨false, some 7⟩⟩ []
        = main_loop (-1) 0 [next_command_iteration]
            ⟨-3, ⟨3, SDM_STATE_IDLE, 0⟩,
              (⟨1, ⟨3, SDM_STATE_WAIT_REPLY, 0⟩, ⟨false, some 7⟩⟩ : LoopState).cfg⟩
            ([] ++ ([Event.update_promt_state, Event.select [3] 3 1 0] ++
              [Event.sock_read, Event.handle_rx_data 5, Event.forced_update_display,
                Event.handle_rx_data 0]))) :=
  protocol_error_policy (-1) 0 ⟨0, ⟨3, SDM_STATE_WAIT_REPLY, 0⟩, ⟨false, some 7⟩⟩
    ⟨1, ⟨3, SDM_STATE_WAIT_REPLY, 0⟩, ⟨false, some 7⟩⟩ script_error_iteration
    [next_command_iteration] [] [Event.update_promt_state, Event.select [3] 3 1 0]
    [Event.sock_read, Event.handle_rx_data 5, Event.forced_update_display,
      Event.handle_rx_data 0] (-3) ⟨3, SDM_STATE_IDLE, 0⟩
    (by decide) (by decide) (by decide) (by decide) (by decide) (by decide)

theorem and_ignore_errors (n : Nat) : n &&& FLAG_IGNORE_ERRORS ≠ 0 ↔ n.testBit 2 = true := by
  have h := Nat.and_two_pow n 2
  unfold FLAG_IGNORE_ERRORS
  norm_num at h
  rw [h]
  cases n.testBit 2 <;> simp

theorem foldl_flag_option (opts : List Char) :
    ∀ flags : Nat, (opts.foldl apply_flag_option flags).testBit 2 = true ↔
      (flags.testBit 2 = true ∨ 'x' ∈ opts) := by
  induction opts with
  | nil => intro flags; simp
  | cons c t ih =>
    intro flags
    rw [List.foldl_cons, ih]
    unfold apply_flag_option FLAG_SHOW_HELP FLAG_SEND_STOP FLAG_IGNORE_ERRORS
    by_cases h1 : c = 'h'
    · subst h1
      have : (1 : Nat).testBit 2 = false := by decide
      simp [Nat.testBit_or, this]
    · by_cases h2 : c = 's'
      · subst h2
        have : (2 : Nat).testBit 2 = false := by decide
        simp [Nat.testBit_or, this]
      · by_cases h3 : c = 'x'
        · subst h3
          have : (4 : Nat).testBit 2 = true := by decide
          simp [Nat.testBit_or, this]
        · simp only [if_neg h1, if_neg h2, if_neg h3, List.mem_cons]
          constructor
          · rintro (h | h)
            · exact Or.inl h
            · exact Or.inr (Or.inr h)
          · rintro (h | h | h)
            · exact Or.inl h
            · exact absurd h.symm h3
            · exact Or.inr h

/-- The bit `FLAG_IGNORE_ERRORS` is set in `flags` exactly when the option
`-x` was given. -/
theorem ignore_errors_iff_option_x (opts : List Char) :
    flags_of_options opts &&& FLAG_IGNORE_ERRORS ≠ 0 ↔ 'x' ∈ opts := by
  rw [and_ignore_errors, flags_of_options, foldl_flag_option]
  simp

end Sdmsh
